import Mathlib

/-! Pendulea `set2`: time-series reads and the reindex decision.

A shallow embedding of `set2/asset-state_DB-read.go` and
`set2/asset-state_timeframe.go`.

* The ordered key-value engine is a list of items, strictly ascending in their
  byte keys (`DB`); a cursor is the sequence of items it visits after `Seek`.
* Collaborators whose code is outside these two files (the key codec of the
  asset, the `pcommon` helpers, the consistency source, the wall clock) are
  fields of `Pcommon` and `AssetState`.
* A Go `(value, error)` result of a collaborator is an `Except`; the results of
  the functions embedded here keep the shape of the Go return values.
* A run-time panic is the `Outcome.panics` result.
-/

namespace Pendulea

/-! ## Bytes and keys -/

/-- A key of the store: its bytes. -/
abbrev Key := List Nat

/-- A raw stored value: its bytes. -/
abbrev Value := List Nat

/-- The Go `bytes.Compare`: lexicographic comparison, `-1`, `0` or `1`. -/
def bytesCompare : List Nat → List Nat → Int
  | [], [] => 0
  | [], _ :: _ => -1
  | _ :: _, [] => 1
  | a :: as, b :: bs =>
    if a < b then -1 else if b < a then 1 else bytesCompare as bs

/-- The Go `bytes.Equal`. -/
def bytesEqual (a b : List Nat) : Bool := decide (a = b)

/-! ## Basic types -/

/-- The `pcommon.TimeUnit` type: a signed 64-bit integer timestamp. -/
abbrev TimeUnit := { t : Int // -9223372036854775808 ≤ t ∧ t ≤ 9223372036854775807 }

/-- Conversion of an integer to `TimeUnit`, wrapping around modulo `2^64`. -/
def TimeUnit.ofInt (i : Int) : TimeUnit :=
  ⟨(i + 9223372036854775808) % 18446744073709551616 - 9223372036854775808, by
    constructor <;> omega⟩

/-- The Go `time.Duration` (nanoseconds). -/
abbrev Duration := Int

/-- The label of a timeframe. -/
abbrev Label := String

/-- A Go `error` value: its message. -/
abbrev Err := String

/-- The data-type schema selector of an asset (`state.DataType()`). -/
abbrev DataType := Nat

/-- The decoded payload of a record. -/
abbrev Payload := List Nat

/-- A `pcommon.Data` record: a decoded value tied to one `TimeUnit`. -/
structure Data where
  time : TimeUnit
  payload : Payload
deriving DecidableEq

/-- The method `Data.GetTime`. -/
def Data.GetTime (d : Data) : TimeUnit := d.time

/-- A non-nil `pcommon.DataList`: the records in order. The Go type is an
interface (`NewTypeTimeArray` picks the concrete list from the data type), so a
value of it can also be nil: that is `none` in `Option DataList`. -/
abbrev DataList := List Data

/-- The method `DataList.Append`: adds at the end. -/
def DataList.Append (l : DataList) (d : Data) : DataList := l ++ [d]

/-- The method `DataList.Prepend`: adds at the front. -/
def DataList.Prepend (l : DataList) (d : Data) : DataList := d :: l

/-- An item under a cursor: its key and what `ValueCopy` gives for it. -/
structure Item where
  key : Key
  value : Except Err Value

/-- The content of the store as a read-only snapshot sees it: the items,
strictly ascending in the byte order of their keys. -/
structure DB where
  items : List Item
  sorted : items.Pairwise (fun a b => bytesCompare a.key b.key < 0)

/-- A badger transaction: the snapshot it reads. -/
structure Txn where
  update : Bool
  snapshot : DB

/-- A badger iterator: its direction and the snapshot it walks. -/
structure Iterator where
  Reverse : Bool
  snapshot : DB

/-- The method `Txn.NewIterator` with the given `Reverse` option. -/
def Txn.NewIterator (txn : Txn) (reverse : Bool) : Iterator := ⟨reverse, txn.snapshot⟩

/-- The items visited by `for it.Seek(key); it.Valid(); it.Next()`, in the order
of the visit. A forward cursor starts at the first key `>= key` and ascends; a
reverse cursor starts at the last key `<= key` and descends. -/
def Iterator.Seek (it : Iterator) (key : Key) : List Item :=
  if it.Reverse then
    it.snapshot.items.reverse.dropWhile (fun i => decide (bytesCompare i.key key > 0))
  else
    it.snapshot.items.dropWhile (fun i => decide (bytesCompare i.key key < 0))

/-- The package `pcommon` and the wall clock, as far as this code uses them. -/
structure Pcommon where
  /-- The function `pcommon.Format.TimeFrameToLabel`. -/
  TimeFrameToLabel : Duration → Except Err Label
  /-- The setting `pcommon.Env.MIN_TIME_FRAME`. -/
  MIN_TIME_FRAME : Duration
  /-- The payload decoder behind `pcommon.ParseTypeData`. -/
  decodePayload : DataType → Value → Except Err Payload
  /-- The reading `pcommon.NewTimeUnitFromTime(time.Now())`. -/
  now : TimeUnit
  /-- The method `TimeUnit.Add`. -/
  Add : TimeUnit → Duration → TimeUnit

/-- Modelled from the spec: `pcommon.ParseTypeData` is not in these files. It
decodes the raw bytes per the data type and fails on malformed bytes; the record
it returns is tied to the time unit it was given. -/
def Pcommon.ParseTypeData (pc : Pcommon) (dataType : DataType) (raw : Value)
    (dataTime : TimeUnit) : Except Err Data :=
  match pc.decodePayload dataType raw with
  | .error err => .error err
  | .ok p => .ok ⟨dataTime, p⟩

/-- The receiver `*AssetState` with the methods defined outside these files. -/
structure AssetState where
  /-- The content of `state.SetRef.db`. -/
  db : DB
  /-- The identifier `state.SetRef.ID()`. -/
  ID : String
  /-- The method `state.DataType`. -/
  DataType : DataType
  /-- The method `state.GetDataKey`. -/
  GetDataKey : Label → TimeUnit → Key
  /-- The method `state.ParseDataKey`. -/
  ParseDataKey : Key → Except Err (Label × TimeUnit)
  /-- The method `state.DataHistoryTime0`. -/
  DataHistoryTime0 : TimeUnit
  /-- The list `state.readList.GetTimeFrameList()`. -/
  readList : List Duration
  /-- The method `state.GetLastConsistencyTimeCached`. -/
  GetLastConsistencyTimeCached : Duration → Except Err TimeUnit
  /-- The method `state.IsConsistent`. -/
  IsConsistent : Duration → Except Err Bool
  /-- The method `state.onNewRead`: the error it returns, if any. -/
  onNewRead : Duration → Option Err

/-- The result of a Go call that may panic. -/
inductive Outcome (α : Type) where
  | returns (a : α)
  | panics
deriving DecidableEq

/-- What a read returns: the list (`none` is the nil list), the error (`none`
is the nil error), and the timeframe of the read-recording goroutine it
started, if it started one. -/
structure ReadOutcome where
  list : Option DataList
  err : Option Err
  spawned : Option Duration
deriving DecidableEq

/-- The method `NewTX`. -/
def AssetState.NewTX (state : AssetState) (update : Bool) : Txn := ⟨update, state.db⟩

/-- The body of the goroutine started when `recordReading` is set: the lines it
logs. Its result goes nowhere else. -/
def readRecorder (state : AssetState) (timeframe : Duration) : List (String × String) :=
  match state.onNewRead timeframe with
  | some err => [(state.ID, err)]
  | none => []

/-! ## `GetInDataRange` -/

/-- The loop of `GetInDataRange` over the items the cursor visits. -/
def rangeLoop (pc : Pcommon) (state : AssetState) (limitKey : Key) :
    List Item → DataList → Except Err DataList
  | [], ret => .ok ret
  | item :: rest, ret =>
    if bytesCompare item.key limitKey ≥ 0 then .ok ret
    else
      match state.ParseDataKey item.key with
      | .error err => .error err
      | .ok (_, dataTime) =>
        match item.value with
        | .error err => .error err
        | .ok value =>
          match pc.ParseTypeData state.DataType value dataTime with
          | .error err => .error err
          | .ok unraw => rangeLoop pc state limitKey rest (ret.Append unraw)

/-- The method `GetInDataRange`. -/
def GetInDataRange (pc : Pcommon) (state : AssetState) (t0 t1 : TimeUnit)
    (timeframe : Duration) (txn : Option Txn) (iter : Option Iterator)
    (recordReading : Bool) : ReadOutcome :=
  if t1.val < t0.val then ⟨none, some "t1 must be after t0", none⟩
  else
    match pc.TimeFrameToLabel timeframe with
    | .error err => ⟨none, some err, none⟩
    | .ok label =>
      let txn := match txn with
        | some x => x
        | none => state.NewTX false
      let startKey := state.GetDataKey label t0
      let limitKey := state.GetDataKey label t1
      let iter := match iter with
        | some i => i
        | none => txn.NewIterator false
      match rangeLoop pc state limitKey (iter.Seek startKey) [] with
      | .error err => ⟨none, some err, none⟩
      | .ok ret => ⟨some ret, none, if recordReading then some timeframe else none⟩

/-! ## `GetDataLimit` and the point lookups -/

/-- The Go struct `DataLimitSettings`. -/
structure DataLimitSettings where
  TimeFrame : Duration
  Limit : Int
  OffsetUnixTime : TimeUnit
  StartByEnd : Bool

/-- The method `GetActiveTimeFrameList`. -/
def GetActiveTimeFrameList (state : AssetState) : List Duration := state.readList

/-- The method `IsTimeframeSupported`. -/
def IsTimeframeSupported (pc : Pcommon) (state : AssetState) (timeframe : Duration) : Bool :=
  if timeframe = pc.MIN_TIME_FRAME then true
  else (GetActiveTimeFrameList state).any (fun tf => decide (tf = timeframe))

/-- The loop of `GetDataLimit` over the items the cursor visits; `count` is the
number of records collected so far. -/
def limitLoop (pc : Pcommon) (state : AssetState) (startKey limitKey : Key)
    (startByEnd : Bool) (limit : Int) : List Item → DataList → Int → Except Err DataList
  | [], ret, _ => .ok ret
  | item :: rest, ret, count =>
    if bytesEqual item.key startKey then
      limitLoop pc state startKey limitKey startByEnd limit rest ret count
    else if (startByEnd && decide (bytesCompare item.key limitKey < 0)) ||
        (!startByEnd && decide (bytesCompare item.key limitKey > 0)) then .ok ret
    else
      match state.ParseDataKey item.key with
      | .error err => .error err
      | .ok (_, rowTime) =>
        match item.value with
        | .error err => .error err
        | .ok value =>
          match pc.ParseTypeData state.DataType value rowTime with
          | .error err => .error err
          | .ok unraw =>
            let ret := if !startByEnd then ret.Append unraw else ret.Prepend unraw
            let count := count + 1
            if count = limit then .ok ret
            else limitLoop pc state startKey limitKey startByEnd limit rest ret count

/-- What a point lookup returns: the record (`none` is nil), its time unit and
the error. -/
structure SingleResult where
  data : Option Data
  time : TimeUnit
  err : Option Err
deriving DecidableEq

/-- The time unit `0`. -/
def TimeUnit.zero : TimeUnit := ⟨0, by omega⟩

/-- The body of `GetDataLimit`, with the result of its call
`state.GetLatestData(timeFrame)` passed in as `latest`; only a forward scan
looks at it. -/
def GetDataLimitWith (latest : Outcome SingleResult) (pc : Pcommon) (state : AssetState)
    (settings : DataLimitSettings) (recordReading : Bool) : Outcome ReadOutcome :=
  let timeFrame := settings.TimeFrame
  let limit := settings.Limit
  let offsetUnixTime := settings.OffsetUnixTime
  let startByEnd := settings.StartByEnd
  if decide (limit > 1) && !IsTimeframeSupported pc state timeFrame then
    .returns ⟨none, none, none⟩
  else
    match pc.TimeFrameToLabel timeFrame with
    | .error err => .returns ⟨none, some err, none⟩
    | .ok label =>
      let txn := state.NewTX false
      let scan (limitTime : TimeUnit) : Outcome ReadOutcome :=
        let startKey := state.GetDataKey label offsetUnixTime
        let limitKey := state.GetDataKey label limitTime
        let iter := txn.NewIterator startByEnd
        match limitLoop pc state startKey limitKey startByEnd limit (iter.Seek startKey) [] 0 with
        | .error err => .returns ⟨none, some err, none⟩
        | .ok ret => .returns ⟨some ret, none, if recordReading then some timeFrame else none⟩
      if startByEnd then scan state.DataHistoryTime0
      else
        match latest with
        | .panics => .panics
        | .returns r =>
          if r.err.isSome || r.data.isNone then .returns ⟨none, r.err, none⟩
          else scan r.time

/-- The body of `getSingleData` after its call of `GetDataLimit`, whose result
is `r`. Calling `Len` on the nil list is a nil dereference: a panic. -/
def getSingleDataOf (r : Outcome ReadOutcome) : Outcome SingleResult :=
  match r with
  | .panics => .panics
  | .returns out =>
    match out.err with
    | some err => .returns ⟨none, TimeUnit.zero, some err⟩
    | none =>
      match out.list with
      | none => .panics
      | some [] => .returns ⟨none, TimeUnit.zero, none⟩
      | some (first :: _) => .returns ⟨some first, first.GetTime, none⟩

/-- The method `GetLatestData`: a backward lookup from now with `Limit = 1`.
The scan is backward, so the inner `GetDataLimit` never asks for the latest
record itself (see `GetLatestData_eq`). -/
def GetLatestData (pc : Pcommon) (state : AssetState) (timeframe : Duration) :
    Outcome SingleResult :=
  getSingleDataOf (GetDataLimitWith .panics pc state ⟨timeframe, 1, pc.now, true⟩ false)

/-- The method `GetDataLimit`. -/
def GetDataLimit (pc : Pcommon) (state : AssetState) (settings : DataLimitSettings)
    (recordReading : Bool) : Outcome ReadOutcome :=
  GetDataLimitWith (GetLatestData pc state settings.TimeFrame) pc state settings recordReading

/-- The method `getSingleData`. -/
def getSingleData (pc : Pcommon) (state : AssetState) (settings : DataLimitSettings) :
    Outcome SingleResult :=
  getSingleDataOf
    (GetDataLimit pc state ⟨settings.TimeFrame, 1, settings.OffsetUnixTime, settings.StartByEnd⟩
      false)

/-- The method `GetEarliestData`. -/
def GetEarliestData (pc : Pcommon) (state : AssetState) (timeframe : Duration) :
    Outcome SingleResult :=
  getSingleData pc state ⟨timeframe, 1, TimeUnit.zero, false⟩

/-! ## Timeframe consistency -/

/-- The number of bits of `n`, for `n < 2 ^ fuel`. -/
def bitLength : Nat → Nat → Nat
  | 0, _ => 0
  | fuel + 1, n => if n = 0 then 0 else bitLength fuel (n / 2) + 1

/-- The value of the Go conversion `float64(x)` of a 64-bit integer: `x` rounded
to 53 significant bits, ties to even. The result is again an integer. -/
def float64OfInt (x : Int) : Int :=
  let n := x.natAbs
  let bits := bitLength 64 n
  if bits ≤ 53 then x
  else
    let e := bits - 53
    let q := n / 2 ^ e
    let r := n % 2 ^ e
    let half := 2 ^ (e - 1)
    let q1 := if r > half ∨ (r = half ∧ q % 2 = 1) then q + 1 else q
    (if x < 0 then -1 else 1) * ((q1 * 2 ^ e : Nat) : Int)

/-- The Go `math.Max` on two finite values. -/
def mathMax (x y : Int) : Int := if x < y then y else x

/-- The Go conversion `pcommon.TimeUnit(f)` of an integral float. The only
value out of range here is `2^63`, which the conversion turns into `-2^63` on
amd64. -/
def timeUnitOfFloat64 (f : Int) : TimeUnit := TimeUnit.ofInt f

/-- The method `GetLastTimeframeIndexingDate`. -/
def GetLastTimeframeIndexingDate (pc : Pcommon) (state : AssetState) (timeFrame : Duration) :
    Outcome (TimeUnit × Option Err) :=
  match GetLatestData pc state timeFrame with
  | .panics => .panics
  | .returns r =>
    match r.err with
    | some err => .returns (TimeUnit.zero, some err)
    | none =>
      match r.data with
      | none => .returns (TimeUnit.zero, none)
      | some _ => .returns (r.time, none)

/-- The method `IsTimeframeIndexUpToDate`. -/
def IsTimeframeIndexUpToDate (pc : Pcommon) (state : AssetState) (timeFrame : Duration) :
    Outcome (Bool × Option Err) :=
  match state.GetLastConsistencyTimeCached pc.MIN_TIME_FRAME with
  | .error err => .returns (false, some err)
  | .ok minTimeframeConsistency =>
    match GetLastTimeframeIndexingDate pc state pc.MIN_TIME_FRAME with
    | .panics => .panics
    | .returns (_, some err) => .returns (false, some err)
    | .returns (l1, none) =>
      let l1 := timeUnitOfFloat64
        (mathMax (float64OfInt l1.val) (float64OfInt minTimeframeConsistency.val))
      match GetLastTimeframeIndexingDate pc state timeFrame with
      | .panics => .panics
      | .returns (_, some err) => .returns (false, some err)
      | .returns (l2, none) =>
        if l2.val = 0 then .returns (false, none)
        else .returns (decide ((pc.Add l2 timeFrame).val > l1.val), none)

/-- The loop of `GetTimeFrameToReindex` over the active timeframes. -/
def reindexLoop (pc : Pcommon) (state : AssetState) :
    List Duration → List Duration → Outcome (List Duration × Option Err)
  | [], reindex => .returns (reindex, none)
  | tf :: rest, reindex =>
    match IsTimeframeIndexUpToDate pc state tf with
    | .panics => .panics
    | .returns (_, some err) => .returns ([], some err)
    | .returns (sync, none) =>
      if !sync then reindexLoop pc state rest (reindex ++ [tf])
      else reindexLoop pc state rest reindex

/-- The method `GetTimeFrameToReindex`; the nil slice is the empty list. -/
def GetTimeFrameToReindex (pc : Pcommon) (state : AssetState) :
    Outcome (List Duration × Option Err) :=
  match state.IsConsistent pc.MIN_TIME_FRAME with
  | .error err => .returns ([], some err)
  | .ok c =>
    if !c then .returns ([], none)
    else reindexLoop pc state (GetActiveTimeFrameList state) []

/-! ## A concrete asset for the scenarios -/

/-- Big-endian bytes of `n` on `w` bytes. -/
def beBytes : Nat → Nat → List Nat
  | 0, _ => []
  | w + 1, n => (n / 256 ^ w) % 256 :: beBytes w n

/-- The number whose big-endian bytes are given. -/
def beValue (bs : List Nat) : Nat := bs.foldl (fun acc b => acc * 256 + b) 0

/-- The namespace bytes of the demo asset. -/
def demoAssetKey : List Nat := [98, 116, 99]

/-- The bytes of a label. -/
def labelBytes (l : Label) : List Nat := l.toList.map Char.toNat

/-- Demo key encoding: namespace, label, then the time unit shifted by `2^63`
on eight big-endian bytes. -/
def demoGetDataKey (l : Label) (t : TimeUnit) : Key :=
  demoAssetKey ++ (labelBytes l ++ beBytes 8 (t.val + 9223372036854775808).toNat)

/-- Demo key decoding: the inverse layout, failing on any other layout. -/
def demoParseDataKey (key : Key) : Except Err (Label × TimeUnit) :=
  if key.take 3 = demoAssetKey ∧ 11 ≤ key.length then
    let body := key.drop 3
    let lbl := body.take (body.length - 8)
    let ts := body.drop (body.length - 8)
    .ok (String.mk (lbl.map Char.ofNat), TimeUnit.ofInt ((beValue ts : Int) - 9223372036854775808))
  else .error "malformed data key"

/-- A time unit given by a small natural number. -/
def tu (n : Nat) : TimeUnit := TimeUnit.ofInt n

/-- One stored bar of the demo asset. -/
def demoItem (l : Label) (n : Nat) : Item := ⟨demoGetDataKey l (tu n), .ok [n % 256]⟩

/-- The record decoded from the stored bar at time `n`. -/
def bar (n : Nat) : Data := ⟨tu n, [n % 256]⟩

/-- Demo store: one-minute bars at 0, 60, 120, 180 and five-minute bars at 0
and 300. -/
def demoItems : List Item :=
  [demoItem "1m" 0, demoItem "1m" 60, demoItem "1m" 120, demoItem "1m" 180,
   demoItem "5m" 0, demoItem "5m" 300]

/-- The demo store. -/
def demoDB : DB := ⟨demoItems, by decide⟩

/-- A store with five-minute bars only. -/
def demoDB5 : DB := ⟨[demoItem "5m" 0, demoItem "5m" 300], by decide⟩

/-- The empty store. -/
def emptyDB : DB := ⟨[], by decide⟩

/-- Demo `pcommon`: two labelled timeframes, seconds as time unit, now = 1000. -/
def demoPc : Pcommon where
  TimeFrameToLabel := fun d =>
    if d = 60000000000 then .ok "1m"
    else if d = 300000000000 then .ok "5m"
    else .error "unknown timeframe"
  MIN_TIME_FRAME := 60000000000
  decodePayload := fun _ v => if v = [] then .error "malformed value" else .ok v
  now := tu 1000
  Add := fun t d => TimeUnit.ofInt (t.val + d / 1000000000)

/-- The demo asset over a given store and active list; its base timeframe is
reported as consistent or not by `consistent`. -/
def demoStateOf (db : DB) (active : List Duration) (consistent : Bool) : AssetState where
  db := db
  ID := "btc"
  DataType := 0
  GetDataKey := demoGetDataKey
  ParseDataKey := demoParseDataKey
  DataHistoryTime0 := tu 0
  readList := active
  GetLastConsistencyTimeCached := fun _ => .ok (tu 900)
  IsConsistent := fun _ => .ok consistent
  onNewRead := fun _ => none

/-- The demo asset with both timeframes active. -/
def demoState : AssetState := demoStateOf demoDB [60000000000, 300000000000] true

end Pendulea

/-! ## Vocabulary of the statements -/

namespace Pendulea

/-- What one turn of a read loop decodes from the item under the cursor: the
time unit from the key, the value, then the record. -/
def decodeItem (pc : Pcommon) (state : AssetState) (item : Item) : Except Err Data :=
  match state.ParseDataKey item.key with
  | .error err => .error err
  | .ok (_, rowTime) =>
    match item.value with
    | .error err => .error err
    | .ok value => pc.ParseTypeData state.DataType value rowTime

/-- The record of an item that decodes. -/
def decodeD (pc : Pcommon) (state : AssetState) (item : Item) : Data :=
  match decodeItem pc state item with
  | .ok d => d
  | .error _ => ⟨TimeUnit.zero, []⟩

/-- The test of `GetDataLimit` that ends the scan: the key is past the limit
key in the direction of the scan. -/
def beyondLimit (startByEnd : Bool) (limitKey : Key) (item : Item) : Bool :=
  (startByEnd && decide (bytesCompare item.key limitKey < 0)) ||
    (!startByEnd && decide (bytesCompare item.key limitKey > 0))

/-- The items `GetDataLimit` would collect from the visited items `l` if the
count never stopped it: those other than the start key, up to the first one
past the limit key. -/
def candidates (startKey limitKey : Key) (startByEnd : Bool) (l : List Item) : List Item :=
  (l.filter (fun i => !bytesEqual i.key startKey)).takeWhile
    (fun i => !beyondLimit startByEnd limitKey i)

/-- Decoding of the candidates in the order of the visit, stopping when the
count reaches `limit`. -/
def collect (pc : Pcommon) (state : AssetState) (limit : Int) :
    List Item → Int → Except Err (List Data)
  | [], _ => .ok []
  | item :: rest, count =>
    match decodeItem pc state item with
    | .error err => .error err
    | .ok d =>
      if count + 1 = limit then .ok [d]
      else
        match collect pc state limit rest (count + 1) with
        | .error err => .error err
        | .ok ds => .ok (d :: ds)

/-- The key encoding of the timeframe `label` preserves the order of time
units. -/
def OrderPreserving (state : AssetState) (label : Label) : Prop :=
  ∀ a b : TimeUnit, a.val < b.val →
    bytesCompare (state.GetDataKey label a) (state.GetDataKey label b) < 0

/-- Key decoding agrees with key encoding on the key range of the timeframe
`label`: a stored key lying between two data keys of `label` that decodes,
decodes to the time unit whose data key it is. -/
def DecodeSound (state : AssetState) (db : DB) (label : Label) : Prop :=
  ∀ item ∈ db.items, ∀ (a b : TimeUnit) (l : Label) (t : TimeUnit),
    bytesCompare (state.GetDataKey label a) item.key ≤ 0 →
    bytesCompare item.key (state.GetDataKey label b) ≤ 0 →
    state.ParseDataKey item.key = .ok (l, t) → item.key = state.GetDataKey label t

/-- Every stored key and value between the data keys of `a` and `b` decodes. -/
def DecodesBetween (pc : Pcommon) (state : AssetState) (db : DB) (label : Label)
    (a b : TimeUnit) : Prop :=
  ∀ item ∈ db.items,
    bytesCompare (state.GetDataKey label a) item.key ≤ 0 →
    bytesCompare item.key (state.GetDataKey label b) ≤ 0 →
    ∃ d, decodeItem pc state item = .ok d

/-- The record `d` is a stored record of the timeframe `label`: an item of the
store has the data key of `d.time` and a value that decodes to `d`. -/
def StoredRecord (pc : Pcommon) (state : AssetState) (db : DB) (label : Label) (d : Data) :
    Prop :=
  ∃ item ∈ db.items, item.key = state.GetDataKey label d.time ∧
    ∃ v, item.value = .ok v ∧ pc.ParseTypeData state.DataType v d.time = .ok d

/-- The stored records of the timeframe `label` whose time unit satisfies `p`,
in the order of the store. An item is of the timeframe when its key is the data
key of the time unit it decodes to. -/
def recordsOf (pc : Pcommon) (state : AssetState) (label : Label) (p : TimeUnit → Bool) :
    List Data :=
  state.db.items.filterMap (fun item =>
    match state.ParseDataKey item.key with
    | .error _ => none
    | .ok (_, t) =>
      if item.key = state.GetDataKey label t ∧ p t = true then
        (decodeItem pc state item).toOption
      else none)

/-- The items of the store a bounded scan of `GetDataLimit` can collect, in the
order of its visit: forward, the keys after the data key of `offset` up to the
data key of `limitTime`; backward, the keys before the data key of `offset`
down to the data key of `limitTime`, newest first. -/
def scanWindow (state : AssetState) (label : Label) (startByEnd : Bool)
    (offset limitTime : TimeUnit) : List Item :=
  if startByEnd then
    (state.db.items.filter (fun i =>
      decide (bytesCompare (state.GetDataKey label limitTime) i.key ≤ 0) &&
      decide (bytesCompare i.key (state.GetDataKey label offset) < 0))).reverse
  else
    state.db.items.filter (fun i =>
      decide (bytesCompare (state.GetDataKey label offset) i.key < 0) &&
      decide (bytesCompare i.key (state.GetDataKey label limitTime) ≤ 0))

/-- What `GetDataLimit` returns once its scan runs with the limit time
`limitTime`, in terms of the scan window. -/
def scanOutcome (pc : Pcommon) (state : AssetState) (settings : DataLimitSettings)
    (recordReading : Bool) (label : Label) (limitTime : TimeUnit) : Outcome ReadOutcome :=
  match collect pc state settings.Limit
      (scanWindow state label settings.StartByEnd settings.OffsetUnixTime limitTime) 0 with
  | .error e => .returns ⟨none, some e, none⟩
  | .ok ds =>
    .returns ⟨some (if settings.StartByEnd then ds.reverse else ds), none,
      if recordReading then some settings.TimeFrame else none⟩

/-- The key space of a timeframe is well formed: if the timeframe has a label,
the key encoding of that label preserves the order of time units, and key
decoding agrees with it on the key range of the label. -/
def KeySpaceOK (pc : Pcommon) (state : AssetState) (timeframe : Duration) : Prop :=
  ∀ label, pc.TimeFrameToLabel timeframe = .ok label →
    OrderPreserving state label ∧ DecodeSound state state.db label

/-- The frontier of `IsTimeframeIndexUpToDate` (its line
`l1 = pcommon.TimeUnit(math.Max(float64(l1), float64(minTimeframeConsistency)))`),
from the last indexed time of the base timeframe and its consistency
checkpoint. -/
def frontier (l1 minTimeframeConsistency : TimeUnit) : TimeUnit :=
  timeUnitOfFloat64 (mathMax (float64OfInt l1.val) (float64OfInt minTimeframeConsistency.val))

/-- The list and the error a read returns, without the record of the goroutine
it started. -/
def returned (r : Outcome ReadOutcome) : Outcome (Option DataList × Option Err) :=
  match r with
  | .panics => .panics
  | .returns out => .returns (out.list, out.err)

/-- The asset with another `onNewRead`. -/
def AssetState.withOnNewRead (state : AssetState) (f : Duration → Option Err) : AssetState :=
  ⟨state.db, state.ID, state.DataType, state.GetDataKey, state.ParseDataKey,
    state.DataHistoryTime0, state.readList, state.GetLastConsistencyTimeCached,
    state.IsConsistent, f⟩

/-- The demo asset, consistent, with a given consistency checkpoint of the base
timeframe. -/
def demoStateAt (db : DB) (active : List Duration) (checkpoint : TimeUnit) : AssetState :=
  ⟨db, "btc", 0, demoGetDataKey, demoParseDataKey, tu 0, active, fun _ => .ok checkpoint,
    fun _ => .ok true, fun _ => none⟩

/-- The demo `pcommon` with a given reading of the clock. -/
def demoPcAt (now : TimeUnit) : Pcommon :=
  ⟨demoPc.TimeFrameToLabel, demoPc.MIN_TIME_FRAME, demoPc.decodePayload, now, demoPc.Add⟩

/-- A store whose only five-minute bar is at time unit 0. -/
def demoDB0 : DB := ⟨[demoItem "1m" 0, demoItem "1m" 60, demoItem "5m" 0], by decide⟩

/-- A store with a five-minute bar 300 time units before `2^53 + 1`. -/
def demoDBBig : DB := ⟨[demoItem "1m" 180, demoItem "5m" 9007199254740693], by decide⟩

/-- A stored bar whose value is malformed: its key is the data key of `n`, its
value does not decode. -/
def demoBadItem (l : Label) (n : Nat) : Item := ⟨demoGetDataKey l (tu n), .ok []⟩

/-- The demo store with the value of the one-minute bar at 120 malformed. -/
def demoDBBad120 : DB :=
  ⟨[demoItem "1m" 0, demoItem "1m" 60, demoBadItem "1m" 120, demoItem "1m" 180], by decide⟩

/-- The demo store with the value of the one-minute bar at 60 malformed. -/
def demoDBBad60 : DB :=
  ⟨[demoItem "1m" 0, demoBadItem "1m" 60, demoItem "1m" 120, demoItem "1m" 180], by decide⟩

/-- An item of the timeframe `label` is stored at the time unit `t`: the store
holds the data key of `t`, whether or not the item decodes. -/
def StoredAt (state : AssetState) (label : Label) (t : TimeUnit) : Prop :=
  ∃ item ∈ state.db.items, item.key = state.GetDataKey label t

/-- The snapshot a call of `GetInDataRange` reads: that of the transaction it
is given, or else the store of the asset. -/
def snapshotOf (state : AssetState) (txn : Option Txn) : DB :=
  match txn with
  | some x => x.snapshot
  | none => state.db

end Pendulea

/-! ## Facts about `bytes.Compare` -/

namespace Pendulea

theorem bytesCompare_self (a : List Nat) : bytesCompare a a = 0 := by
  induction a with
  | nil => rfl
  | cons x xs ih => simp [bytesCompare, ih]

theorem bytesCompare_eq_zero {a b : List Nat} (h : bytesCompare a b = 0) : a = b := by
  induction a generalizing b with
  | nil => cases b <;> simp_all [bytesCompare]
  | cons x xs ih =>
    cases b with
    | nil => simp [bytesCompare] at h
    | cons y ys =>
      simp only [bytesCompare] at h
      split_ifs at h with h1 h2
      · omega
      · have hxy : x = y := by omega
        rw [hxy, ih h]

theorem bytesCompare_swap (a b : List Nat) : bytesCompare b a = - bytesCompare a b := by
  induction a generalizing b with
  | nil => cases b <;> simp [bytesCompare]
  | cons x xs ih =>
    cases b with
    | nil => simp [bytesCompare]
    | cons y ys =>
      simp only [bytesCompare]
      split_ifs <;> first | omega | rfl | exact ih ys

theorem bytesCompare_trans {a b c : List Nat} (h1 : bytesCompare a b < 0)
    (h2 : bytesCompare b c < 0) : bytesCompare a c < 0 := by
  induction a generalizing b c with
  | nil =>
    cases c with
    | nil => cases b <;> simp [bytesCompare] at h1 h2
    | cons z zs => simp [bytesCompare]
  | cons x xs ih =>
    cases b with
    | nil => simp [bytesCompare] at h1
    | cons y ys =>
      cases c with
      | nil => simp [bytesCompare] at h2
      | cons z zs =>
        simp only [bytesCompare] at h1 h2 ⊢
        split_ifs at h1 h2 ⊢ <;> first | omega | exact ih h1 h2

theorem bytesCompare_le_lt {a b c : List Nat} (h1 : bytesCompare a b ≤ 0)
    (h2 : bytesCompare b c < 0) : bytesCompare a c < 0 := by
  rcases lt_or_eq_of_le h1 with h | h
  · exact bytesCompare_trans h h2
  · rw [bytesCompare_eq_zero h]; exact h2

theorem bytesCompare_lt_le {a b c : List Nat} (h1 : bytesCompare a b < 0)
    (h2 : bytesCompare b c ≤ 0) : bytesCompare a c < 0 := by
  rcases lt_or_eq_of_le h2 with h | h
  · exact bytesCompare_trans h1 h
  · rw [← bytesCompare_eq_zero h]; exact h1

theorem bytesCompare_append (p a b : List Nat) :
    bytesCompare (p ++ a) (p ++ b) = bytesCompare a b := by
  induction p with
  | nil => rfl
  | cons x xs ih => simp [bytesCompare, ih]

end Pendulea

/-! ## The read loops -/

namespace Pendulea

theorem limitLoop_eq (pc : Pcommon) (state : AssetState) (sk lk : Key) (rev : Bool)
    (limit : Int) (l : List Item) (acc : DataList) (c : Int) :
    limitLoop pc state sk lk rev limit l acc c =
      match collect pc state limit (candidates sk lk rev l) c with
      | .error e => .error e
      | .ok ds => .ok (if rev then ds.reverse ++ acc else acc ++ ds) := by
  induction l generalizing acc c with
  | nil => simp [limitLoop, candidates, collect]
  | cons i rest ih =>
    unfold limitLoop
    by_cases h1 : bytesEqual i.key sk = true
    · have hc : candidates sk lk rev (i :: rest) = candidates sk lk rev rest := by
        simp [candidates, h1]
      rw [if_pos h1, hc]; exact ih acc c
    · rw [if_neg h1]
      by_cases h2 : beyondLimit rev lk i = true
      · have hc : candidates sk lk rev (i :: rest) = [] := by
          simp [candidates, h1, h2]
        have h2b : ((rev && decide (bytesCompare i.key lk < 0)) ||
            (!rev && decide (bytesCompare i.key lk > 0))) = true := h2
        rw [if_pos h2b, hc]; simp [collect]
      · have hc : candidates sk lk rev (i :: rest) = i :: candidates sk lk rev rest := by
          simp [candidates, h1, h2]
        have h2b : ¬ ((rev && decide (bytesCompare i.key lk < 0)) ||
            (!rev && decide (bytesCompare i.key lk > 0))) = true := h2
        rw [if_neg h2b, hc]
        simp only [collect, decodeItem]
        cases hk : state.ParseDataKey i.key with
        | error e => simp
        | ok lt =>
          obtain ⟨lb, t⟩ := lt
          cases hv : i.value with
          | error e => simp
          | ok v =>
            cases hp : pc.ParseTypeData state.DataType v t with
            | error e => simp [hp]
            | ok d =>
              simp only [hp]
              by_cases hl : c + 1 = limit
              · simp only [hl, if_true]
                cases rev <;> simp [DataList.Append, DataList.Prepend]
              · simp only [hl, if_false]
                rw [ih]
                cases hcol : collect pc state limit (candidates sk lk rev rest) (c + 1) with
                | error e => simp
                | ok ds =>
                  cases rev <;> simp [DataList.Append, DataList.Prepend]

theorem collect_ok {pc : Pcommon} {state : AssetState} {limit : Int} {cs : List Item}
    {c : Int} {ds : List Data} (h : collect pc state limit cs c = .ok ds) :
    ∃ k, k ≤ cs.length ∧ ds = (cs.take k).map (decodeD pc state) ∧
      (∀ i ∈ cs.take k, decodeItem pc state i = .ok (decodeD pc state i)) ∧
      (c < limit → (k : Int) ≤ limit - c) ∧ (k = cs.length ∨ c + k = limit) := by
  induction cs generalizing c ds with
  | nil =>
    simp only [collect, Except.ok.injEq] at h
    subst h
    refine ⟨0, by simp, by simp, by simp, ?_, by simp⟩
    intro hlt; push_cast; omega
  | cons i rest ih =>
    simp only [collect] at h
    cases hd : decodeItem pc state i with
    | error e => simp [hd] at h
    | ok d =>
      have hD : decodeD pc state i = d := by simp [decodeD, hd]
      simp only [hd] at h
      by_cases hl : c + 1 = limit
      · simp only [hl, if_true, Except.ok.injEq] at h
        subst h
        refine ⟨1, by simp, by simp [hD], ?_, ?_, ?_⟩
        · intro j hj
          simp only [List.take_succ_cons, List.take_zero, List.mem_singleton] at hj
          subst hj; rw [hD]; exact hd
        · intro _; push_cast; omega
        · right; push_cast; omega
      · simp only [hl, if_false] at h
        cases hr : collect pc state limit rest (c + 1) with
        | error e => simp [hr] at h
        | ok ds1 =>
          simp only [hr, Except.ok.injEq] at h
          subst h
          obtain ⟨k, hk1, hk2, hk3, hk4, hk5⟩ := ih hr
          refine ⟨k + 1, by simp; omega, by simp [hk2, hD], ?_, ?_, ?_⟩
          · intro j hj
            simp only [List.take_succ_cons, List.mem_cons] at hj
            rcases hj with rfl | hj
            · rw [hD]; exact hd
            · exact hk3 j hj
          · intro hlt
            have := hk4 (by omega)
            push_cast; omega
          · rcases hk5 with h | h
            · left; simp [h]
            · right; push_cast; omega

theorem collect_all {pc : Pcommon} {state : AssetState} {limit : Int} {cs : List Item}
    {c : Int} (hdec : ∀ i ∈ cs, ∃ d, decodeItem pc state i = .ok d) :
    collect pc state limit cs c =
      .ok ((cs.take (if c < limit then (limit - c).toNat else cs.length)).map
        (decodeD pc state)) := by
  induction cs generalizing c with
  | nil => simp [collect]
  | cons i rest ih =>
    obtain ⟨d, hd⟩ := hdec i (List.mem_cons_self _ _)
    have hD : decodeD pc state i = d := by simp [decodeD, hd]
    have hrest : ∀ j ∈ rest, ∃ d, decodeItem pc state j = .ok d :=
      fun j hj => hdec j (List.mem_cons_of_mem _ hj)
    simp only [collect, hd]
    by_cases hl : c + 1 = limit
    · have h1 : c < limit := by omega
      have h2 : (limit - c).toNat = 1 := by omega
      simp [hl, h1, h2, hD]
    · simp only [hl, if_false, ih hrest]
      by_cases h1 : c < limit
      · have h3 : c + 1 < limit := by omega
        have h2 : (limit - c).toNat = (limit - (c + 1)).toNat + 1 := by omega
        simp [h1, h3, h2, hD]
      · have h3 : ¬ c + 1 < limit := by omega
        simp [h1, h3, hD]

theorem rangeLoop_eq (pc : Pcommon) (state : AssetState) (lk : Key) (l : List Item)
    (acc : DataList) (c : Int) (hc : 0 ≤ c) :
    rangeLoop pc state lk l acc =
      match collect pc state 0 (l.takeWhile (fun i => decide (bytesCompare i.key lk < 0))) c with
      | .error e => .error e
      | .ok ds => .ok (acc ++ ds) := by
  induction l generalizing acc c with
  | nil => simp [rangeLoop, collect]
  | cons i rest ih =>
    unfold rangeLoop
    by_cases h1 : bytesCompare i.key lk ≥ 0
    · have h2 : ¬ bytesCompare i.key lk < 0 := by omega
      simp [h1, h2, List.takeWhile_cons, collect]
    · have h2 : bytesCompare i.key lk < 0 := by omega
      rw [if_neg h1]
      simp only [List.takeWhile_cons, h2, decide_True, if_true, collect, decodeItem]
      cases hk : state.ParseDataKey i.key with
      | error e => simp
      | ok lt =>
        obtain ⟨lb, t⟩ := lt
        cases hv : i.value with
        | error e => simp
        | ok v =>
          cases hp : pc.ParseTypeData state.DataType v t with
          | error e => simp [hp]
          | ok d =>
            have hl : ¬ c + 1 = 0 := by omega
            simp only [hp, hl, if_false]
            rw [ih _ (c + 1) (by omega)]
            cases hcol : collect pc state 0
                (rest.takeWhile (fun i => decide (bytesCompare i.key lk < 0))) (c + 1) with
            | error e => simp
            | ok ds => simp [DataList.Append]

/-! ## Scans of a sorted store -/

theorem takeWhile_eq_filter {α : Type} (p : α → Bool) (l : List α)
    (h : l.Pairwise (fun a b => p b = true → p a = true)) : l.takeWhile p = l.filter p := by
  induction l with
  | nil => rfl
  | cons a l ih =>
    rw [List.pairwise_cons] at h
    by_cases ha : p a = true
    · simp [List.takeWhile_cons, ha, List.filter_cons, ih h.2]
    · have hnil : l.filter p = [] := by
        rw [List.filter_eq_nil_iff]
        intro b hb hpb
        exact ha (h.1 b hb hpb)
      simp [List.takeWhile_cons, ha, List.filter_cons, hnil]

theorem dropWhile_eq_filter {α : Type} (p : α → Bool) (l : List α)
    (h : l.Pairwise (fun a b => p b = true → p a = true)) :
    l.dropWhile p = l.filter (fun x => !p x) := by
  induction l with
  | nil => rfl
  | cons a l ih =>
    rw [List.pairwise_cons] at h
    by_cases ha : p a = true
    · simp [List.dropWhile_cons, ha, List.filter_cons, ih h.2]
    · have hall : l.filter (fun x => !p x) = l := by
        rw [List.filter_eq_self]
        intro b hb
        have : ¬ p b = true := fun hpb => ha (h.1 b hb hpb)
        simpa using this
      simp [List.dropWhile_cons, ha, List.filter_cons, hall]

theorem seek_forward (db : DB) (sk : Key) :
    (⟨false, db⟩ : Iterator).Seek sk =
      db.items.filter (fun i => decide (bytesCompare sk i.key ≤ 0)) := by
  have hs : db.items.Pairwise (fun a b =>
      decide (bytesCompare b.key sk < 0) = true → decide (bytesCompare a.key sk < 0) = true) := by
    refine db.sorted.imp ?_
    intro a b hab hb
    simp only [decide_eq_true_eq] at hb ⊢
    exact bytesCompare_trans hab hb
  simp only [Iterator.Seek, Bool.false_eq_true, if_false]
  rw [dropWhile_eq_filter _ _ hs]
  apply List.filter_congr
  intro i _
  have := bytesCompare_swap i.key sk
  by_cases h : bytesCompare i.key sk < 0
  · have h2 : ¬ bytesCompare sk i.key ≤ 0 := by omega
    simp [h, h2]
  · have h2 : bytesCompare sk i.key ≤ 0 := by omega
    simp [h, h2]

theorem seek_backward (db : DB) (sk : Key) :
    (⟨true, db⟩ : Iterator).Seek sk =
      (db.items.filter (fun i => decide (bytesCompare i.key sk ≤ 0))).reverse := by
  have hs : db.items.reverse.Pairwise (fun a b =>
      decide (bytesCompare b.key sk > 0) = true → decide (bytesCompare a.key sk > 0) = true) := by
    rw [List.pairwise_reverse]
    refine db.sorted.imp ?_
    intro a b hab ha
    simp only [decide_eq_true_eq, gt_iff_lt] at ha ⊢
    have h1 := bytesCompare_swap a.key sk
    have h2 := bytesCompare_swap b.key sk
    have h3 : bytesCompare sk b.key < 0 := bytesCompare_trans (by omega) hab
    omega
  simp only [Iterator.Seek, if_true]
  rw [dropWhile_eq_filter _ _ hs, List.filter_reverse]
  congr 1
  apply List.filter_congr
  intro i _
  by_cases h : bytesCompare i.key sk > 0
  · have h2 : ¬ bytesCompare i.key sk ≤ 0 := by omega
    simp [h, h2]
  · have h2 : bytesCompare i.key sk ≤ 0 := by omega
    simp [h, h2]

/-- The candidates of a forward scan: the items with `sk < key <= lk`. -/
theorem candidates_forward (db : DB) (sk lk : Key) :
    candidates sk lk false ((⟨false, db⟩ : Iterator).Seek sk) =
      db.items.filter (fun i =>
        decide (bytesCompare sk i.key < 0) && decide (bytesCompare i.key lk ≤ 0)) := by
  rw [seek_forward]
  unfold candidates
  rw [List.filter_filter]
  have hs : (db.items.filter (fun a => (!bytesEqual a.key sk) &&
      decide (bytesCompare sk a.key ≤ 0))).Pairwise (fun a b =>
      (!beyondLimit false lk b) = true → (!beyondLimit false lk a) = true) := by
    refine (db.sorted.filter _).imp ?_
    intro a b hab hb
    simp only [beyondLimit, Bool.false_and, Bool.not_false, Bool.true_and, Bool.false_or,
      Bool.not_eq_true', decide_eq_false_iff_not, gt_iff_lt, not_lt] at hb ⊢
    exact le_of_lt (bytesCompare_lt_le hab hb)
  rw [takeWhile_eq_filter _ _ hs, List.filter_filter]
  apply List.filter_congr
  intro i _
  have h1 := bytesCompare_swap i.key sk
  have h0 : bytesEqual i.key sk = true ↔ bytesCompare i.key sk = 0 := by
    simp only [bytesEqual, decide_eq_true_eq]
    constructor
    · intro h; rw [h]; exact bytesCompare_self sk
    · exact bytesCompare_eq_zero
  by_cases ha : bytesCompare sk i.key < 0
  · have hne : ¬ bytesEqual i.key sk = true := by rw [h0]; omega
    have hle : bytesCompare sk i.key ≤ 0 := by omega
    by_cases hb : bytesCompare i.key lk ≤ 0
    · have hb2 : ¬ bytesCompare i.key lk > 0 := by omega
      simp [beyondLimit, ha, hne, hle, hb, hb2]
    · have hb2 : bytesCompare i.key lk > 0 := by omega
      simp only [gt_iff_lt] at hb2
      simp [beyondLimit, ha, hb, hb2]
  · by_cases he : bytesCompare sk i.key ≤ 0
    · have heq : bytesEqual i.key sk = true := by rw [h0]; omega
      simp [ha, heq]
    · simp [ha, he]

/-- The candidates of a backward scan: the items with `lk <= key < sk`, newest
first. -/
theorem candidates_backward (db : DB) (sk lk : Key) :
    candidates sk lk true ((⟨true, db⟩ : Iterator).Seek sk) =
      (db.items.filter (fun i =>
        decide (bytesCompare lk i.key ≤ 0) && decide (bytesCompare i.key sk < 0))).reverse := by
  rw [seek_backward]
  unfold candidates
  rw [List.filter_reverse, List.filter_filter]
  have hs : (db.items.filter (fun a => (!bytesEqual a.key sk) &&
      decide (bytesCompare a.key sk ≤ 0))).reverse.Pairwise (fun a b =>
      (!beyondLimit true lk b) = true → (!beyondLimit true lk a) = true) := by
    rw [List.pairwise_reverse]
    refine (db.sorted.filter _).imp ?_
    intro a b hab ha
    simp only [beyondLimit, Bool.true_and, Bool.not_true, Bool.false_and, Bool.or_false,
      Bool.not_eq_true', decide_eq_false_iff_not, not_lt] at ha ⊢
    have h1 := bytesCompare_swap a.key lk
    have h2 := bytesCompare_swap b.key lk
    have h3 : bytesCompare lk b.key < 0 := bytesCompare_le_lt (by omega) hab
    omega
  rw [takeWhile_eq_filter _ _ hs, List.filter_reverse, List.filter_filter]
  congr 1
  apply List.filter_congr
  intro i _
  have h1 := bytesCompare_swap i.key lk
  have h0 : bytesEqual i.key sk = true ↔ bytesCompare i.key sk = 0 := by
    simp only [bytesEqual, decide_eq_true_eq]
    constructor
    · intro h; rw [h]; exact bytesCompare_self sk
    · exact bytesCompare_eq_zero
  by_cases ha : bytesCompare i.key sk < 0
  · have hne : ¬ bytesEqual i.key sk = true := by rw [h0]; omega
    have hle : bytesCompare i.key sk ≤ 0 := by omega
    by_cases hb : bytesCompare lk i.key ≤ 0
    · have hb2 : ¬ bytesCompare i.key lk < 0 := by omega
      simp [beyondLimit, ha, hne, hle, hb, hb2]
    · have hb2 : bytesCompare i.key lk < 0 := by omega
      simp [beyondLimit, ha, hb, hb2]
  · by_cases he : bytesCompare i.key sk ≤ 0
    · have heq : bytesEqual i.key sk = true := by rw [h0]; omega
      simp [ha, heq]
    · simp [ha, he]

/-- The items a range read decodes: those with `sk <= key < lk`. -/
theorem range_window (db : DB) (sk lk : Key) :
    ((⟨false, db⟩ : Iterator).Seek sk).takeWhile (fun i => decide (bytesCompare i.key lk < 0)) =
      db.items.filter (fun i =>
        decide (bytesCompare sk i.key ≤ 0) && decide (bytesCompare i.key lk < 0)) := by
  rw [seek_forward]
  have hs : (db.items.filter (fun i => decide (bytesCompare sk i.key ≤ 0))).Pairwise (fun a b =>
      decide (bytesCompare b.key lk < 0) = true → decide (bytesCompare a.key lk < 0) = true) := by
    refine (db.sorted.filter _).imp ?_
    intro a b hab hb
    simp only [decide_eq_true_eq] at hb ⊢
    exact bytesCompare_trans hab hb
  rw [takeWhile_eq_filter _ _ hs, List.filter_filter]
  apply List.filter_congr
  intro i _
  exact Bool.and_comm _ _

/-! ## Key order and time order -/

theorem key_lt_iff {state : AssetState} {label : Label} (hmono : OrderPreserving state label)
    (a b : TimeUnit) :
    bytesCompare (state.GetDataKey label a) (state.GetDataKey label b) < 0 ↔ a.val < b.val := by
  constructor
  · intro h
    by_contra hn
    rcases lt_or_eq_of_le (not_lt.mp hn) with h1 | h1
    · have h2 := hmono b a h1
      have h3 := bytesCompare_swap (state.GetDataKey label a) (state.GetDataKey label b)
      omega
    · have hab : b = a := Subtype.ext h1
      rw [hab, bytesCompare_self] at h
      omega
  · exact hmono a b

theorem key_le_iff {state : AssetState} {label : Label} (hmono : OrderPreserving state label)
    (a b : TimeUnit) :
    bytesCompare (state.GetDataKey label a) (state.GetDataKey label b) ≤ 0 ↔ a.val ≤ b.val := by
  have h1 := key_lt_iff hmono b a
  have h3 := bytesCompare_swap (state.GetDataKey label a) (state.GetDataKey label b)
  constructor
  · intro h
    by_contra hn
    have := h1.mpr (by omega)
    omega
  · intro h
    by_contra hn
    have := h1.mp (by omega)
    omega

theorem key_injective {state : AssetState} {label : Label} (hmono : OrderPreserving state label)
    {a b : TimeUnit} (h : state.GetDataKey label a = state.GetDataKey label b) : a = b := by
  have h1 := key_le_iff hmono a b
  have h2 := key_le_iff hmono b a
  rw [h, bytesCompare_self] at h1 h2
  exact Subtype.ext (le_antisymm (h1.mp le_rfl) (h2.mp le_rfl))

theorem ParseTypeData_time {pc : Pcommon} {dt : DataType} {v : Value} {t : TimeUnit} {d : Data}
    (h : pc.ParseTypeData dt v t = .ok d) : d.time = t := by
  unfold Pcommon.ParseTypeData at h
  cases hp : pc.decodePayload dt v with
  | error e => simp [hp] at h
  | ok p =>
    simp only [hp, Except.ok.injEq] at h
    rw [← h]

theorem decodeItem_ok {pc : Pcommon} {state : AssetState} {i : Item} {d : Data}
    (h : decodeItem pc state i = .ok d) :
    ∃ l v, state.ParseDataKey i.key = .ok (l, d.time) ∧ i.value = .ok v ∧
      pc.ParseTypeData state.DataType v d.time = .ok d := by
  unfold decodeItem at h
  cases hk : state.ParseDataKey i.key with
  | error e => simp [hk] at h
  | ok lt =>
    obtain ⟨l, t⟩ := lt
    cases hv : i.value with
    | error e => simp [hk, hv] at h
    | ok v =>
      simp only [hk, hv] at h
      have ht := ParseTypeData_time h
      subst ht
      exact ⟨l, v, rfl, rfl, h⟩

theorem decodeD_of_ok {pc : Pcommon} {state : AssetState} {i : Item} {d : Data}
    (h : decodeItem pc state i = .ok d) : decodeD pc state i = d := by
  simp [decodeD, h]

/-- A decoded item of the key range of `label` carries the time unit of its
key. -/
theorem key_of_decoded {pc : Pcommon} {state : AssetState} {db : DB} {label : Label}
    (hsound : DecodeSound state db label) {i : Item} (hi : i ∈ db.items) {a b : TimeUnit}
    (ha : bytesCompare (state.GetDataKey label a) i.key ≤ 0)
    (hb : bytesCompare i.key (state.GetDataKey label b) ≤ 0) {d : Data}
    (hd : decodeItem pc state i = .ok d) : i.key = state.GetDataKey label d.time := by
  obtain ⟨l, v, hk, _, _⟩ := decodeItem_ok hd
  exact hsound i hi a b l d.time ha hb hk

/-! ## The demo asset is well formed -/

theorem beBytes_lt (w : Nat) (n m : Nat) (h : n % 256 ^ w < m % 256 ^ w) :
    bytesCompare (beBytes w n) (beBytes w m) < 0 := by
  induction w with
  | zero => simp [Nat.mod_one] at h
  | succ w ih =>
    simp only [beBytes, bytesCompare]
    have hn := Nat.mod_mul (x := n) (a := 256 ^ w) (b := 256)
    have hm := Nat.mod_mul (x := m) (a := 256 ^ w) (b := 256)
    rw [pow_succ] at h
    rw [hn, hm] at h
    have hP : 0 < 256 ^ w := by positivity
    have rn : n % 256 ^ w < 256 ^ w := Nat.mod_lt _ hP
    have rm : m % 256 ^ w < 256 ^ w := Nat.mod_lt _ hP
    split_ifs with h1 h2
    · omega
    · exfalso
      have : 256 ^ w * (m / 256 ^ w % 256 + 1) ≤ 256 ^ w * (n / 256 ^ w % 256) :=
        Nat.mul_le_mul_left _ h2
      rw [Nat.mul_add, Nat.mul_one] at this
      omega
    · have heq : n / 256 ^ w % 256 = m / 256 ^ w % 256 := by omega
      rw [heq] at h
      exact ih (by omega)

theorem demo_mono (db : DB) (active : List Duration) (c : Bool) (label : Label) :
    OrderPreserving (demoStateOf db active c) label := by
  intro a b hab
  show bytesCompare (demoGetDataKey label a) (demoGetDataKey label b) < 0
  unfold demoGetDataKey
  rw [bytesCompare_append, bytesCompare_append]
  apply beBytes_lt
  have ha := a.property
  have hb := b.property
  have e : (256 : Nat) ^ 8 = 18446744073709551616 := by norm_num
  rw [e]
  omega

theorem demoKey_1m (b : TimeUnit) :
    demoGetDataKey "1m" b =
      98 :: 116 :: 99 :: 49 :: 109 :: beBytes 8 (b.val + 9223372036854775808).toNat := rfl

theorem demoKey_5m (b : TimeUnit) :
    demoGetDataKey "5m" b =
      98 :: 116 :: 99 :: 53 :: 109 :: beBytes 8 (b.val + 9223372036854775808).toNat := rfl

theorem demo_sound (active : List Duration) (c : Bool) :
    DecodeSound (demoStateOf demoDB active c) demoDB "1m" := by
  intro item hi a b l t ha hb hp
  show item.key = demoGetDataKey "1m" t
  change bytesCompare item.key (demoGetDataKey "1m" b) ≤ 0 at hb
  change demoParseDataKey item.key = .ok (l, t) at hp
  simp only [demoDB, demoItems, List.mem_cons, List.mem_singleton, List.not_mem_nil,
    or_false] at hi
  rcases hi with rfl | rfl | rfl | rfl | rfl | rfl
  · have e : demoParseDataKey (demoItem "1m" 0).key = .ok ("1m", tu 0) := rfl
    rw [e] at hp
    simp only [Except.ok.injEq, Prod.mk.injEq] at hp
    rw [← hp.2]; rfl
  · have e : demoParseDataKey (demoItem "1m" 60).key = .ok ("1m", tu 60) := rfl
    rw [e] at hp
    simp only [Except.ok.injEq, Prod.mk.injEq] at hp
    rw [← hp.2]; rfl
  · have e : demoParseDataKey (demoItem "1m" 120).key = .ok ("1m", tu 120) := rfl
    rw [e] at hp
    simp only [Except.ok.injEq, Prod.mk.injEq] at hp
    rw [← hp.2]; rfl
  · have e : demoParseDataKey (demoItem "1m" 180).key = .ok ("1m", tu 180) := rfl
    rw [e] at hp
    simp only [Except.ok.injEq, Prod.mk.injEq] at hp
    rw [← hp.2]; rfl
  · exfalso
    have e : (demoItem "5m" 0).key = demoGetDataKey "5m" (tu 0) := rfl
    rw [e, demoKey_5m, demoKey_1m] at hb
    simp [bytesCompare] at hb
  · exfalso
    have e : (demoItem "5m" 300).key = demoGetDataKey "5m" (tu 300) := rfl
    rw [e, demoKey_5m, demoKey_1m] at hb
    simp [bytesCompare] at hb

theorem demo_decodes (active : List Duration) (c : Bool) (label : Label) (a b : TimeUnit) :
    DecodesBetween demoPc (demoStateOf demoDB active c) demoDB label a b := by
  intro item hi _ _
  simp only [demoDB, demoItems, List.mem_cons, List.mem_singleton, List.not_mem_nil,
    or_false] at hi
  rcases hi with rfl | rfl | rfl | rfl | rfl | rfl <;> exact ⟨_, rfl⟩

/-! ## Range reads -/

theorem GetInDataRange_eq (pc : Pcommon) (state : AssetState) (t0 t1 : TimeUnit)
    (timeframe : Duration) (label : Label) (txn : Option Txn) (recordReading : Bool)
    (hlabel : pc.TimeFrameToLabel timeframe = .ok label) (hrange : t0.val ≤ t1.val) :
    GetInDataRange pc state t0 t1 timeframe txn none recordReading =
      match collect pc state 0 ((snapshotOf state txn).items.filter (fun i =>
          decide (bytesCompare (state.GetDataKey label t0) i.key ≤ 0) &&
          decide (bytesCompare i.key (state.GetDataKey label t1) < 0))) 0 with
      | .error e => ⟨none, some e, none⟩
      | .ok ds => ⟨some ds, none, if recordReading then some timeframe else none⟩ := by
  have hn : ¬ t1.val < t0.val := not_lt.mpr hrange
  have hit : (match txn with
        | some x => x
        | none => state.NewTX false).NewIterator false =
      (⟨false, snapshotOf state txn⟩ : Iterator) := by
    cases txn <;> rfl
  unfold GetInDataRange
  simp only [hn, if_false, hlabel]
  rw [hit, rangeLoop_eq pc state _ _ [] 0 le_rfl, range_window]
  cases collect pc state 0 ((snapshotOf state txn).items.filter (fun i =>
      decide (bytesCompare (state.GetDataKey label t0) i.key ≤ 0) &&
      decide (bytesCompare i.key (state.GetDataKey label t1) < 0))) 0 with
  | error e => rfl
  | ok ds => simp

/-- C1: for a labelled timeframe and `t0 <= t1`, with an order-preserving key
encoding and every key and value of the range decoding, `GetInDataRange`
returns, with no error, exactly the stored records of the timeframe whose time
unit `t` has `t0 <= t < t1`, in strictly ascending order of time unit (so each
once); a record at `t0` is in, a record at `t1` is out, and `t0 = t1` gives the
empty list. -/
theorem GetInDataRange_half_open (pc : Pcommon) (state : AssetState) (t0 t1 : TimeUnit)
    (timeframe : Duration) (label : Label) (txn : Option Txn) (recordReading : Bool)
    (hlabel : pc.TimeFrameToLabel timeframe = .ok label) (hrange : t0.val ≤ t1.val)
    (hmono : OrderPreserving state label)
    (hsound : DecodeSound state (snapshotOf state txn) label)
    (hdec : DecodesBetween pc state (snapshotOf state txn) label t0 t1) :
    ∃ ret : DataList,
      GetInDataRange pc state t0 t1 timeframe txn none recordReading =
        ⟨some ret, none, if recordReading then some timeframe else none⟩ ∧
      ret.Pairwise (fun x y => x.time.val < y.time.val) ∧
      (∀ d, d ∈ ret ↔ (t0.val ≤ d.time.val ∧ d.time.val < t1.val ∧
        StoredRecord pc state (snapshotOf state txn) label d)) ∧
      (t0 = t1 → ret = []) := by
  set db := snapshotOf state txn with hdb
  set W := db.items.filter (fun i =>
      decide (bytesCompare (state.GetDataKey label t0) i.key ≤ 0) &&
      decide (bytesCompare i.key (state.GetDataKey label t1) < 0)) with hW
  have hmemW : ∀ i, i ∈ W ↔ i ∈ db.items ∧ bytesCompare (state.GetDataKey label t0) i.key ≤ 0 ∧
      bytesCompare i.key (state.GetDataKey label t1) < 0 := by
    intro i
    simp [hW, List.mem_filter]
  have hWdec : ∀ i ∈ W, ∃ d, decodeItem pc state i = .ok d := by
    intro i hi
    obtain ⟨h1, h2, h3⟩ := (hmemW i).mp hi
    exact hdec i h1 h2 (le_of_lt h3)
  have hkey : ∀ i ∈ W, ∀ d, decodeItem pc state i = .ok d →
      i.key = state.GetDataKey label d.time := by
    intro i hi d hd
    obtain ⟨h1, h2, h3⟩ := (hmemW i).mp hi
    exact key_of_decoded hsound h1 h2 (le_of_lt h3) hd
  have hmem : ∀ d, d ∈ W.map (decodeD pc state) ↔ (t0.val ≤ d.time.val ∧ d.time.val < t1.val ∧
      StoredRecord pc state db label d) := by
    intro d
    rw [List.mem_map]
    constructor
    · rintro ⟨i, hi, rfl⟩
      obtain ⟨d, hd⟩ := hWdec i hi
      rw [decodeD_of_ok hd]
      obtain ⟨h1, h2, h3⟩ := (hmemW i).mp hi
      have hk := hkey i hi d hd
      rw [hk] at h2 h3
      obtain ⟨l, v, _, hv, hp⟩ := decodeItem_ok hd
      exact ⟨(key_le_iff hmono _ _).mp h2, (key_lt_iff hmono _ _).mp h3, i, h1, hk, v, hv, hp⟩
    · rintro ⟨h2, h3, i, h1, hk, v, hv, hp⟩
      have hiW : i ∈ W := by
        rw [hmemW, hk]
        exact ⟨h1, (key_le_iff hmono _ _).mpr h2, (key_lt_iff hmono _ _).mpr h3⟩
      refine ⟨i, hiW, ?_⟩
      obtain ⟨d1, hd1⟩ := hWdec i hiW
      rw [decodeD_of_ok hd1]
      obtain ⟨l, v1, _, hv1, hp1⟩ := decodeItem_ok hd1
      have ht : d1.time = d.time := key_injective hmono ((hkey i hiW d1 hd1).symm.trans hk)
      rw [hv] at hv1
      simp only [Except.ok.injEq] at hv1
      rw [ht, ← hv1, hp] at hp1
      simp only [Except.ok.injEq] at hp1
      exact hp1.symm
  have hsorted : (W.map (decodeD pc state)).Pairwise (fun x y => x.time.val < y.time.val) := by
    rw [List.pairwise_map]
    refine List.Pairwise.imp_of_mem ?_ (db.sorted.filter _)
    intro a b ha hb hab
    obtain ⟨da, hda⟩ := hWdec a ha
    obtain ⟨dbb, hdb2⟩ := hWdec b hb
    rw [decodeD_of_ok hda, decodeD_of_ok hdb2]
    rw [hkey a ha da hda, hkey b hb dbb hdb2] at hab
    exact (key_lt_iff hmono _ _).mp hab
  refine ⟨W.map (decodeD pc state), ?_, hsorted, hmem, ?_⟩
  · rw [GetInDataRange_eq pc state t0 t1 timeframe label txn recordReading hlabel hrange,
      collect_all hWdec]
    simp
  · intro h01
    rw [List.eq_nil_iff_forall_not_mem]
    intro d hd
    have := (hmem d).mp hd
    rw [h01] at this
    omega

/-- C1, on the scenario of the specification: bars at 0, 60, 120 and 180, and
the range from 0 to 180. -/
theorem GetInDataRange_half_open_witness :
    (demoPc.TimeFrameToLabel 60000000000 = .ok "1m" ∧ (tu 0).val ≤ (tu 180).val ∧
      OrderPreserving demoState "1m" ∧ DecodeSound demoState (snapshotOf demoState none) "1m" ∧
      DecodesBetween demoPc demoState (snapshotOf demoState none) "1m" (tu 0) (tu 180)) ∧
    GetInDataRange demoPc demoState (tu 0) (tu 180) 60000000000 none none false =
      ⟨some [bar 0, bar 60, bar 120], none, none⟩ ∧
    ∃ ret : DataList,
      GetInDataRange demoPc demoState (tu 0) (tu 180) 60000000000 none none false =
        ⟨some ret, none, if false = true then some 60000000000 else none⟩ ∧
      ret.Pairwise (fun x y => x.time.val < y.time.val) ∧
      (∀ d, d ∈ ret ↔ ((tu 0).val ≤ d.time.val ∧ d.time.val < (tu 180).val ∧
        StoredRecord demoPc demoState (snapshotOf demoState none) "1m" d)) ∧
      (tu 0 = tu 180 → ret = []) :=
  ⟨⟨rfl, by decide, demo_mono _ _ _ _, demo_sound _ _, demo_decodes _ _ _ _ _⟩, by decide,
    GetInDataRange_half_open demoPc demoState (tu 0) (tu 180) 60000000000 "1m" none false rfl
      (by decide) (demo_mono _ _ _ _) (demo_sound _ _) (demo_decodes _ _ _ _ _)⟩

/-- C2: when `t1 < t0`, `GetInDataRange` returns the nil list and the
invalid-range error, whatever the timeframe, the transaction, the cursor, the
store and `recordReading` are, and starts no read recording. -/
theorem GetInDataRange_invalid_range (pc : Pcommon) (state : AssetState) (t0 t1 : TimeUnit)
    (timeframe : Duration) (txn : Option Txn) (iter : Option Iterator) (recordReading : Bool)
    (h : t1.val < t0.val) :
    GetInDataRange pc state t0 t1 timeframe txn iter recordReading =
      ⟨none, some "t1 must be after t0", none⟩ := by
  unfold GetInDataRange
  rw [if_pos h]

/-- C2, on an unknown timeframe with a caller-supplied reverse cursor. -/
theorem GetInDataRange_invalid_range_witness :
    (tu 3).val < (tu 5).val ∧
    GetInDataRange demoPc demoState (tu 5) (tu 3) 7 (some ⟨false, demoDB⟩) (some ⟨true, demoDB⟩)
      true = ⟨none, some "t1 must be after t0", none⟩ :=
  ⟨by decide, GetInDataRange_invalid_range demoPc demoState (tu 5) (tu 3) 7 _ _ true
    (by decide)⟩

/-! ## Bounded reads -/

theorem scan_eq (pc : Pcommon) (state : AssetState) (label : Label) (rev : Bool) (limit : Int)
    (offset limitTime : TimeUnit) :
    limitLoop pc state (state.GetDataKey label offset) (state.GetDataKey label limitTime) rev
        limit (((state.NewTX false).NewIterator rev).Seek (state.GetDataKey label offset)) [] 0 =
      match collect pc state limit (scanWindow state label rev offset limitTime) 0 with
      | .error e => .error e
      | .ok ds => .ok (if rev then ds.reverse else ds) := by
  rw [limitLoop_eq]
  cases rev with
  | false =>
    have hi : (state.NewTX false).NewIterator false = (⟨false, state.db⟩ : Iterator) := rfl
    rw [hi, candidates_forward]
    simp only [scanWindow, Bool.false_eq_true, if_false, List.nil_append]
  | true =>
    have hi : (state.NewTX false).NewIterator true = (⟨true, state.db⟩ : Iterator) := rfl
    rw [hi, candidates_backward]
    simp only [scanWindow, if_true, List.append_nil]

theorem GetDataLimitWith_eq (latest : Outcome SingleResult) (pc : Pcommon) (state : AssetState)
    (s : DataLimitSettings) (rr : Bool) (label : Label)
    (hsupp : (decide (s.Limit > 1) && !IsTimeframeSupported pc state s.TimeFrame) = false)
    (hlabel : pc.TimeFrameToLabel s.TimeFrame = .ok label) :
    GetDataLimitWith latest pc state s rr =
      if s.StartByEnd then scanOutcome pc state s rr label state.DataHistoryTime0
      else
        match latest with
        | .panics => .panics
        | .returns r =>
          if r.err.isSome || r.data.isNone then .returns ⟨none, r.err, none⟩
          else scanOutcome pc state s rr label r.time := by
  have hscan : ∀ limitTime : TimeUnit,
      (match limitLoop pc state (state.GetDataKey label s.OffsetUnixTime)
          (state.GetDataKey label limitTime) s.StartByEnd s.Limit
          (((state.NewTX false).NewIterator s.StartByEnd).Seek
            (state.GetDataKey label s.OffsetUnixTime)) [] 0 with
        | .error err => Outcome.returns (⟨none, some err, none⟩ : ReadOutcome)
        | .ok ret => Outcome.returns ⟨some ret, none, if rr then some s.TimeFrame else none⟩) =
      scanOutcome pc state s rr label limitTime := by
    intro limitTime
    rw [scan_eq]
    unfold scanOutcome
    cases collect pc state s.Limit
        (scanWindow state label s.StartByEnd s.OffsetUnixTime limitTime) 0 <;> rfl
  unfold GetDataLimitWith
  simp only [hsupp, Bool.false_eq_true, if_false, hlabel, hscan]

/-- A backward scan does not look at the latest record: `GetLatestData` is the
call `getSingleData` of the source. -/
theorem GetLatestData_eq (pc : Pcommon) (state : AssetState) (timeframe : Duration) :
    GetLatestData pc state timeframe = getSingleData pc state ⟨timeframe, 1, pc.now, true⟩ := by
  unfold GetLatestData getSingleData GetDataLimit GetDataLimitWith
  simp

/-- What is behind a list returned by `GetDataLimit`: a labelled timeframe, a
limit time, and the decoding of the first items of the scan window. -/
theorem GetDataLimit_list {pc : Pcommon} {state : AssetState} {s : DataLimitSettings}
    {rr : Bool} {out : ReadOutcome} {ret : DataList}
    (h : GetDataLimit pc state s rr = .returns out) (hl : out.list = some ret) :
    ∃ (label : Label) (limitTime : TimeUnit) (ds : List Data),
      pc.TimeFrameToLabel s.TimeFrame = .ok label ∧
      (s.StartByEnd = true → limitTime = state.DataHistoryTime0) ∧
      (s.StartByEnd = false → ∃ r, GetLatestData pc state s.TimeFrame = .returns r ∧
        r.err = none ∧ r.data.isSome = true ∧ r.time = limitTime) ∧
      collect pc state s.Limit
        (scanWindow state label s.StartByEnd s.OffsetUnixTime limitTime) 0 = .ok ds ∧
      ret = (if s.StartByEnd then ds.reverse else ds) ∧ out.err = none := by
  unfold GetDataLimit at h
  by_cases hsupp : (decide (s.Limit > 1) && !IsTimeframeSupported pc state s.TimeFrame) = true
  · unfold GetDataLimitWith at h
    simp only [hsupp, if_true, Outcome.returns.injEq] at h
    rw [← h] at hl
    simp at hl
  · have hsupp2 : (decide (s.Limit > 1) && !IsTimeframeSupported pc state s.TimeFrame) = false := by
      simpa using hsupp
    cases hlabel : pc.TimeFrameToLabel s.TimeFrame with
    | error e =>
      unfold GetDataLimitWith at h
      simp only [hsupp2, Bool.false_eq_true, if_false, hlabel, Outcome.returns.injEq] at h
      rw [← h] at hl
      simp at hl
    | ok label =>
      rw [GetDataLimitWith_eq _ pc state s rr label hsupp2 hlabel] at h
      have hscan : ∀ limitTime, scanOutcome pc state s rr label limitTime = .returns out →
          ∃ ds, collect pc state s.Limit
            (scanWindow state label s.StartByEnd s.OffsetUnixTime limitTime) 0 = .ok ds ∧
            ret = (if s.StartByEnd then ds.reverse else ds) ∧ out.err = none := by
        intro limitTime hso
        unfold scanOutcome at hso
        cases hc : collect pc state s.Limit
            (scanWindow state label s.StartByEnd s.OffsetUnixTime limitTime) 0 with
        | error e =>
          simp only [hc, Outcome.returns.injEq] at hso
          rw [← hso] at hl
          simp at hl
        | ok ds =>
          simp only [hc, Outcome.returns.injEq] at hso
          rw [← hso] at hl ⊢
          simp only [Option.some.injEq] at hl
          exact ⟨ds, rfl, hl.symm, rfl⟩
      by_cases hrev : s.StartByEnd = true
      · simp only [hrev, if_true] at h
        obtain ⟨ds, h1, h2, h3⟩ := hscan _ h
        refine ⟨label, state.DataHistoryTime0, ds, rfl, fun _ => rfl, ?_, h1, h2, h3⟩
        intro hf; rw [hrev] at hf; cases hf
      · have hrev2 : s.StartByEnd = false := by simpa using hrev
        simp only [hrev2, Bool.false_eq_true, if_false] at h
        cases hlat : GetLatestData pc state s.TimeFrame with
        | panics => simp [hlat] at h
        | returns r =>
          simp only [hlat] at h
          by_cases hr : (r.err.isSome || r.data.isNone) = true
          · simp only [hr, if_true, Outcome.returns.injEq] at h
            rw [← h] at hl
            simp at hl
          · simp only [hr, if_false] at h
            obtain ⟨ds, h1, h2, h3⟩ := hscan _ h
            refine ⟨label, r.time, ds, rfl, ?_, ?_, h1, h2, h3⟩
            · intro ht; rw [hrev2] at ht; cases ht
            · intro _
              refine ⟨r, rfl, ?_, ?_, rfl⟩
              · cases he : r.err with
                | none => rfl
                | some e => simp [he] at hr
              · cases hd : r.data with
                | none => simp [hd] at hr
                | some d => rfl

theorem scanWindow_mem {state : AssetState} {label : Label} {rev : Bool}
    {offset limitTime : TimeUnit} {i : Item} :
    i ∈ scanWindow state label rev offset limitTime ↔ i ∈ state.db.items ∧
      (if rev then bytesCompare (state.GetDataKey label limitTime) i.key ≤ 0 ∧
          bytesCompare i.key (state.GetDataKey label offset) < 0
        else bytesCompare (state.GetDataKey label offset) i.key < 0 ∧
          bytesCompare i.key (state.GetDataKey label limitTime) ≤ 0) := by
  cases rev <;> simp [scanWindow, List.mem_filter]

theorem scanWindow_sorted (state : AssetState) (label : Label) (rev : Bool)
    (offset limitTime : TimeUnit) :
    (scanWindow state label rev offset limitTime).Pairwise (fun a b =>
      if rev then bytesCompare b.key a.key < 0 else bytesCompare a.key b.key < 0) := by
  cases rev with
  | false =>
    simp only [scanWindow, Bool.false_eq_true, if_false]
    exact state.db.sorted.filter _
  | true =>
    simp only [scanWindow, if_true]
    rw [List.pairwise_reverse]
    exact state.db.sorted.filter _

/-- A decoded item of the scan window carries the time unit of its key, and that
time unit lies between the offset (excluded) and the limit time (included). -/
theorem scanWindow_decoded {pc : Pcommon} {state : AssetState} {label : Label} {rev : Bool}
    {offset limitTime : TimeUnit} (hmono : OrderPreserving state label)
    (hsound : DecodeSound state state.db label) {i : Item}
    (hi : i ∈ scanWindow state label rev offset limitTime) {d : Data}
    (hd : decodeItem pc state i = .ok d) :
    i.key = state.GetDataKey label d.time ∧
      (if rev then limitTime.val ≤ d.time.val ∧ d.time.val < offset.val
        else offset.val < d.time.val ∧ d.time.val ≤ limitTime.val) := by
  obtain ⟨h1, h2⟩ := scanWindow_mem.mp hi
  cases rev with
  | false =>
    simp only [Bool.false_eq_true, if_false] at h2 ⊢
    have hk := key_of_decoded hsound h1 (le_of_lt h2.1) h2.2 hd
    rw [hk] at h2
    exact ⟨hk, (key_lt_iff hmono _ _).mp h2.1, (key_le_iff hmono _ _).mp h2.2⟩
  | true =>
    simp only [if_true] at h2 ⊢
    have hk := key_of_decoded hsound h1 h2.1 (le_of_lt h2.2) hd
    rw [hk] at h2
    exact ⟨hk, (key_le_iff hmono _ _).mp h2.1, (key_lt_iff hmono _ _).mp h2.2⟩

/-- The records decoded from the first items of a scan window are in the order
of the scan: ascending forward, descending backward. -/
theorem picked_sorted {pc : Pcommon} {state : AssetState} {label : Label} {rev : Bool}
    {offset limitTime : TimeUnit} (hmono : OrderPreserving state label)
    (hsound : DecodeSound state state.db label) (k : Nat)
    (hdec : ∀ i ∈ (scanWindow state label rev offset limitTime).take k,
      decodeItem pc state i = .ok (decodeD pc state i)) :
    (((scanWindow state label rev offset limitTime).take k).map (decodeD pc state)).Pairwise
      (fun x y => if rev then y.time.val < x.time.val else x.time.val < y.time.val) := by
  rw [List.pairwise_map]
  refine List.Pairwise.imp_of_mem ?_
    ((scanWindow_sorted state label rev offset limitTime).sublist (List.take_sublist k _))
  intro a b ha hb hab
  have ka := (scanWindow_decoded hmono hsound (List.mem_of_mem_take ha) (hdec a ha)).1
  have kb := (scanWindow_decoded hmono hsound (List.mem_of_mem_take hb) (hdec b hb)).1
  rw [ka, kb] at hab
  cases rev with
  | false =>
    simp only [Bool.false_eq_true, if_false] at hab ⊢
    exact (key_lt_iff hmono _ _).mp hab
  | true =>
    simp only [if_true] at hab ⊢
    exact (key_lt_iff hmono _ _).mp hab

/-- The content of a list returned by `GetDataLimit` over a well-formed key
space: ascending, and every record lies between the offset (excluded) and the
limit time of the scan (included). -/
theorem GetDataLimit_bounds {pc : Pcommon} {state : AssetState} {s : DataLimitSettings}
    {rr : Bool} {out : ReadOutcome} {ret : DataList}
    (hks : KeySpaceOK pc state s.TimeFrame)
    (h : GetDataLimit pc state s rr = .returns out) (hl : out.list = some ret) :
    ∃ limitTime : TimeUnit,
      (s.StartByEnd = true → limitTime = state.DataHistoryTime0) ∧
      (s.StartByEnd = false → ∃ r, GetLatestData pc state s.TimeFrame = .returns r ∧
        r.err = none ∧ r.data.isSome = true ∧ r.time = limitTime) ∧
      ret.Pairwise (fun x y => x.time.val < y.time.val) ∧
      ∀ d ∈ ret, if s.StartByEnd then
          limitTime.val ≤ d.time.val ∧ d.time.val < s.OffsetUnixTime.val
        else s.OffsetUnixTime.val < d.time.val ∧ d.time.val ≤ limitTime.val := by
  obtain ⟨label, limitTime, ds, hlabel, h1, h2, hc, hret, _⟩ := GetDataLimit_list h hl
  obtain ⟨hmono, hsound⟩ := hks label hlabel
  obtain ⟨k, _, hds, hdec, _, _⟩ := collect_ok hc
  have hsorted := picked_sorted hmono hsound k hdec
  rw [← hds] at hsorted
  have hmem : ∀ d ∈ ds, if s.StartByEnd then
      limitTime.val ≤ d.time.val ∧ d.time.val < s.OffsetUnixTime.val
      else s.OffsetUnixTime.val < d.time.val ∧ d.time.val ≤ limitTime.val := by
    intro d hd
    rw [hds, List.mem_map] at hd
    obtain ⟨i, hi, rfl⟩ := hd
    exact (scanWindow_decoded hmono hsound (List.mem_of_mem_take hi) (hdec i hi)).2
  refine ⟨limitTime, h1, h2, ?_, ?_⟩
  · cases hrev : s.StartByEnd with
    | false =>
      simp only [hrev, Bool.false_eq_true, if_false] at hsorted hret
      rw [hret]; exact hsorted
    | true =>
      simp only [hrev, if_true] at hsorted hret
      rw [hret, List.pairwise_reverse]; exact hsorted
  · intro d hd
    apply hmem
    cases hrev : s.StartByEnd with
    | false => simpa [hret, hrev] using hd
    | true => simpa [hret, hrev] using hd

theorem demo_keyspace (active : List Duration) (c : Bool) :
    KeySpaceOK demoPc (demoStateOf demoDB active c) 60000000000 := by
  intro label hlabel
  have h1 : demoPc.TimeFrameToLabel 60000000000 = .ok "1m" := rfl
  rw [h1] at hlabel
  simp only [Except.ok.injEq] at hlabel
  subst hlabel
  exact ⟨demo_mono _ _ _ _, demo_sound _ _⟩

/-- C3: over a well-formed key space, no record of a list returned by
`GetDataLimit` has the time unit `OffsetUnixTime`, in either direction and for
any `Limit`. -/
theorem GetDataLimit_excludes_offset (pc : Pcommon) (state : AssetState)
    (settings : DataLimitSettings) (recordReading : Bool) (out : ReadOutcome) (ret : DataList)
    (hks : KeySpaceOK pc state settings.TimeFrame)
    (h : GetDataLimit pc state settings recordReading = .returns out)
    (hl : out.list = some ret) :
    ∀ d ∈ ret, d.time ≠ settings.OffsetUnixTime := by
  obtain ⟨limitTime, _, _, _, hb⟩ := GetDataLimit_bounds hks h hl
  intro d hd heq
  have := hb d hd
  rw [heq] at this
  cases hrev : settings.StartByEnd with
  | false => simp only [hrev, Bool.false_eq_true, if_false] at this; omega
  | true => simp only [hrev, if_true] at this; omega

/-- C3, on a backward read from 120 over bars at 0, 60, 120, 180. -/
theorem GetDataLimit_excludes_offset_witness :
    KeySpaceOK demoPc demoState 60000000000 ∧
    GetDataLimit demoPc demoState ⟨60000000000, 5, tu 120, true⟩ true =
      .returns ⟨some [bar 0, bar 60], none, some 60000000000⟩ ∧
    ∀ d ∈ ([bar 0, bar 60] : DataList), d.time ≠ tu 120 :=
  ⟨demo_keyspace _ _, by decide,
    GetDataLimit_excludes_offset demoPc demoState ⟨60000000000, 5, tu 120, true⟩ true
      ⟨some [bar 0, bar 60], none, some 60000000000⟩ [bar 0, bar 60]
      (demo_keyspace _ _) (by decide) rfl⟩

/-- C4, as stated, fails: with `Limit = 0` the count never equals the limit, and
a forward read from 0 over bars at 0, 60, 120, 180 returns three records. -/
theorem GetDataLimit_limit_zero_counterexample :
    GetDataLimit demoPc demoState ⟨60000000000, 0, tu 0, false⟩ false =
      .returns ⟨some [bar 60, bar 120, bar 180], none, none⟩ ∧
    ¬ ((([bar 60, bar 120, bar 180] : DataList).length : Int) ≤ 0) :=
  ⟨by decide, by decide⟩

/-- C4, amended: when `Limit >= 1`, a list returned by `GetDataLimit` has at
most `Limit` records, in both directions. -/
theorem GetDataLimit_at_most_limit (pc : Pcommon) (state : AssetState)
    (settings : DataLimitSettings) (recordReading : Bool) (out : ReadOutcome) (ret : DataList)
    (hlimit : 1 ≤ settings.Limit)
    (h : GetDataLimit pc state settings recordReading = .returns out)
    (hl : out.list = some ret) :
    (ret.length : Int) ≤ settings.Limit := by
  obtain ⟨label, limitTime, ds, _, _, _, hc, hret, _⟩ := GetDataLimit_list h hl
  obtain ⟨k, _, hds, _, hk, _⟩ := collect_ok hc
  have hk2 := hk (by omega)
  have hlen : ret.length = ds.length := by
    rw [hret]; split <;> simp
  have hle : ds.length ≤ k := by
    rw [hds, List.length_map, List.length_take]
    exact Nat.min_le_left _ _
  rw [hlen]
  omega

/-- C4 amended, on a forward read with `Limit = 1`. -/
theorem GetDataLimit_at_most_limit_witness :
    (1 : Int) ≤ 1 ∧
    GetDataLimit demoPc demoState ⟨60000000000, 1, tu 0, false⟩ false =
      .returns ⟨some [bar 60], none, none⟩ ∧
    ((([bar 60] : DataList).length : Int) ≤ 1) :=
  ⟨le_refl _, by decide,
    GetDataLimit_at_most_limit demoPc demoState ⟨60000000000, 1, tu 0, false⟩ false
      ⟨some [bar 60], none, none⟩ [bar 60] (le_refl _) (by decide) rfl⟩

/-- C5: over a well-formed key space, a list returned by a forward
`GetDataLimit` is in strictly ascending order of time unit, and each of its
records has a time unit after `OffsetUnixTime` and not after the time unit that
`GetLatestData` returns for the timeframe. -/
theorem GetDataLimit_forward_bounds (pc : Pcommon) (state : AssetState)
    (settings : DataLimitSettings) (recordReading : Bool) (out : ReadOutcome) (ret : DataList)
    (hks : KeySpaceOK pc state settings.TimeFrame)
    (hdir : settings.StartByEnd = false)
    (h : GetDataLimit pc state settings recordReading = .returns out)
    (hl : out.list = some ret) :
    ret.Pairwise (fun x y => x.time.val < y.time.val) ∧
    ∃ latest, GetLatestData pc state settings.TimeFrame = .returns latest ∧
      latest.err = none ∧ latest.data.isSome = true ∧
      ∀ d ∈ ret, settings.OffsetUnixTime.val < d.time.val ∧ d.time.val ≤ latest.time.val := by
  obtain ⟨limitTime, _, h2, hs, hb⟩ := GetDataLimit_bounds hks h hl
  obtain ⟨r, hr1, hr2, hr3, hr4⟩ := h2 hdir
  refine ⟨hs, r, hr1, hr2, hr3, ?_⟩
  intro d hd
  have := hb d hd
  simp only [hdir, Bool.false_eq_true, if_false] at this
  rw [hr4]
  exact this

/-- C5, on the forward read from 60 with `Limit = 2`. -/
theorem GetDataLimit_forward_bounds_witness :
    KeySpaceOK demoPc demoState 60000000000 ∧
    GetDataLimit demoPc demoState ⟨60000000000, 2, tu 60, false⟩ false =
      .returns ⟨some [bar 120, bar 180], none, none⟩ ∧
    GetLatestData demoPc demoState 60000000000 =
      .returns ⟨some (bar 180), tu 180, none⟩ ∧
    (([bar 120, bar 180] : DataList).Pairwise
        (fun x y => x.time.val < y.time.val) ∧
      ∃ latest, GetLatestData demoPc demoState 60000000000 = .returns latest ∧
        latest.err = none ∧ latest.data.isSome = true ∧
        ∀ d ∈ ([bar 120, bar 180] : DataList),
          (tu 60).val < d.time.val ∧ d.time.val ≤ latest.time.val) :=
  ⟨demo_keyspace _ _, by decide, by decide,
    GetDataLimit_forward_bounds demoPc demoState ⟨60000000000, 2, tu 60, false⟩ false
      ⟨some [bar 120, bar 180], none, none⟩ [bar 120, bar 180]
      (demo_keyspace _ _) rfl (by decide) rfl⟩

/-- C6: over a well-formed key space, a list returned by a backward
`GetDataLimit` is in strictly ascending order of time unit, and each of its
records has a time unit before `OffsetUnixTime` and not before
`DataHistoryTime0`. -/
theorem GetDataLimit_backward_bounds (pc : Pcommon) (state : AssetState)
    (settings : DataLimitSettings) (recordReading : Bool) (out : ReadOutcome) (ret : DataList)
    (hks : KeySpaceOK pc state settings.TimeFrame)
    (hdir : settings.StartByEnd = true)
    (h : GetDataLimit pc state settings recordReading = .returns out)
    (hl : out.list = some ret) :
    ret.Pairwise (fun x y => x.time.val < y.time.val) ∧
    ∀ d ∈ ret, state.DataHistoryTime0.val ≤ d.time.val ∧
      d.time.val < settings.OffsetUnixTime.val := by
  obtain ⟨limitTime, h1, _, hs, hb⟩ := GetDataLimit_bounds hks h hl
  refine ⟨hs, ?_⟩
  intro d hd
  have := hb d hd
  simp only [hdir, if_true] at this
  rw [← h1 hdir]
  exact this

/-- C6, on the backward read from 180 with `Limit = 2`: the bars at 120 and 60
are collected in that order and returned ascending. -/
theorem GetDataLimit_backward_bounds_witness :
    KeySpaceOK demoPc demoState 60000000000 ∧
    GetDataLimit demoPc demoState ⟨60000000000, 2, tu 180, true⟩ false =
      .returns ⟨some [bar 60, bar 120], none, none⟩ ∧
    (([bar 60, bar 120] : DataList).Pairwise
        (fun x y => x.time.val < y.time.val) ∧
      ∀ d ∈ ([bar 60, bar 120] : DataList),
        demoState.DataHistoryTime0.val ≤ d.time.val ∧ d.time.val < (tu 180).val) :=
  ⟨demo_keyspace _ _, by decide,
    GetDataLimit_backward_bounds demoPc demoState ⟨60000000000, 2, tu 180, true⟩ false
      ⟨some [bar 60, bar 120], none, none⟩ [bar 60, bar 120]
      (demo_keyspace _ _) rfl (by decide) rfl⟩

theorem filterMap_eq_map_filter {α β : Type} (f : α → Option β) (q : α → Bool) (g : α → β)
    (l : List α) (h : ∀ i ∈ l, f i = if q i = true then some (g i) else none) :
    l.filterMap f = (l.filter q).map g := by
  induction l with
  | nil => rfl
  | cons a l ih =>
    have ha := h a (List.mem_cons_self _ _)
    have hl := ih (fun i hi => h i (List.mem_cons_of_mem _ hi))
    by_cases hq : q a = true
    · rw [if_pos hq] at ha
      simp [List.filterMap_cons, ha, List.filter_cons, hq, hl]
    · rw [if_neg hq] at ha
      simp [List.filterMap_cons, ha, List.filter_cons, hq, hl]

/-- The stored records of a timeframe in a time window are the decoded items of
the matching key window. -/
theorem recordsOf_eq {pc : Pcommon} {state : AssetState} {label : Label}
    (p : TimeUnit → Bool) (q : Item → Bool)
    (hpq : ∀ i ∈ state.db.items, ∀ t, i.key = state.GetDataKey label t → p t = q i)
    (hq : ∀ i ∈ state.db.items, q i = true →
      ∃ d, decodeItem pc state i = .ok d ∧ i.key = state.GetDataKey label d.time) :
    recordsOf pc state label p = (state.db.items.filter q).map (decodeD pc state) := by
  unfold recordsOf
  apply filterMap_eq_map_filter
  intro i hi
  by_cases hqi : q i = true
  · obtain ⟨d, hd, hk⟩ := hq i hi hqi
    obtain ⟨l, v, hparse, _, _⟩ := decodeItem_ok hd
    have hp : p d.time = true := by rw [hpq i hi d.time hk]; exact hqi
    simp only [hparse, hqi, if_true]
    rw [if_pos ⟨hk, hp⟩, hd, decodeD_of_ok hd]
    rfl
  · rw [if_neg hqi]
    cases hparse : state.ParseDataKey i.key with
    | error e => rfl
    | ok lt =>
      obtain ⟨l, t⟩ := lt
      simp only []
      rw [if_neg]
      rintro ⟨hk, hp⟩
      rw [hpq i hi t hk] at hp
      exact hqi hp

/-- C8, as stated, fails: the base timeframe is always supported, so a read of
it with `Limit > 1` is served even when the active list does not hold it. -/
theorem GetDataLimit_unsupported_counterexample :
    (60000000000 : Duration) ∉ GetActiveTimeFrameList (demoStateOf demoDB [] true) ∧
    (3 : Int) > 1 ∧
    GetDataLimit demoPc (demoStateOf demoDB [] true) ⟨60000000000, 3, tu 0, false⟩ false =
      .returns ⟨some [bar 60, bar 120, bar 180], none, none⟩ :=
  ⟨by decide, by decide, by decide⟩

/-- C8, amended: when `Limit > 1` and the timeframe is neither the base
timeframe nor in the active list, `GetDataLimit` returns the nil list and no
error, whatever the store holds, and starts no read recording. -/
theorem GetDataLimit_unsupported (pc : Pcommon) (state : AssetState) (settings : DataLimitSettings)
    (recordReading : Bool) (hlimit : settings.Limit > 1)
    (hbase : settings.TimeFrame ≠ pc.MIN_TIME_FRAME)
    (hactive : settings.TimeFrame ∉ GetActiveTimeFrameList state) :
    GetDataLimit pc state settings recordReading = .returns ⟨none, none, none⟩ := by
  have hsup : IsTimeframeSupported pc state settings.TimeFrame = false := by
    unfold IsTimeframeSupported
    rw [if_neg hbase]
    simp only [List.any_eq_false, decide_eq_true_eq]
    intro tf htf heq
    exact hactive (heq ▸ htf)
  unfold GetDataLimit GetDataLimitWith
  simp [hlimit, hsup]

/-- C8 amended, on five-minute bars that the store holds while the timeframe is
not active. -/
theorem GetDataLimit_unsupported_witness :
    ((2 : Int) > 1 ∧ (300000000000 : Duration) ≠ demoPc.MIN_TIME_FRAME ∧
      (300000000000 : Duration) ∉ GetActiveTimeFrameList (demoStateOf demoDB [60000000000] true)) ∧
    GetDataLimit demoPc (demoStateOf demoDB [60000000000] true)
      ⟨300000000000, 2, tu 0, false⟩ true = .returns ⟨none, none, none⟩ :=
  ⟨⟨by decide, by decide, by decide⟩,
    GetDataLimit_unsupported demoPc (demoStateOf demoDB [60000000000] true)
      ⟨300000000000, 2, tu 0, false⟩ true (by decide) (by decide) (by decide)⟩

/-- When the latest lookup of a labelled timeframe finds nothing, the forward
lookup gets the nil list from `GetDataLimit` and panics on it. -/
theorem GetEarliestData_panics_of_no_latest (pc : Pcommon) (state : AssetState)
    (timeframe : Duration) (label : Label) (t : TimeUnit)
    (hlabel : pc.TimeFrameToLabel timeframe = .ok label)
    (hlat : GetLatestData pc state timeframe = .returns ⟨none, t, none⟩) :
    GetEarliestData pc state timeframe = .panics := by
  have hsupp : (decide ((1 : Int) > 1) && !IsTimeframeSupported pc state timeframe) = false := by
    simp
  unfold GetEarliestData getSingleData GetDataLimit
  rw [GetDataLimitWith_eq _ pc state _ false label hsupp hlabel]
  simp [hlat, getSingleDataOf]

/-- C9: the code evaluated where the claim fails. On a store with no
one-minute bar (empty, or holding five-minute bars only) `GetLatestData`
returns the nil record with time unit 0 and no error, but `GetEarliestData`
panics. -/
theorem GetEarliestData_no_record_panics :
    GetLatestData demoPc (demoStateOf emptyDB [] true) 60000000000 =
      .returns ⟨none, TimeUnit.zero, none⟩ ∧
    GetEarliestData demoPc (demoStateOf emptyDB [] true) 60000000000 = .panics ∧
    GetLatestData demoPc (demoStateOf demoDB5 [] true) 60000000000 =
      .returns ⟨none, TimeUnit.zero, none⟩ ∧
    GetEarliestData demoPc (demoStateOf demoDB5 [] true) 60000000000 = .panics :=
  ⟨by decide, by decide, by decide, by decide⟩

/-- C10: when the consistency source reports the base timeframe as not
consistent, `GetTimeFrameToReindex` returns the empty set and no error,
whatever the active list and the store are. -/
theorem GetTimeFrameToReindex_inconsistent (pc : Pcommon) (state : AssetState)
    (h : state.IsConsistent pc.MIN_TIME_FRAME = .ok false) :
    GetTimeFrameToReindex pc state = .returns ([], none) := by
  unfold GetTimeFrameToReindex
  rw [h]
  rfl

/-- C10, on an asset whose active five-minute timeframe is stale. -/
theorem GetTimeFrameToReindex_inconsistent_witness :
    (demoStateOf demoDB [60000000000, 300000000000] false).IsConsistent demoPc.MIN_TIME_FRAME =
      .ok false ∧
    IsTimeframeIndexUpToDate demoPc (demoStateOf demoDB [60000000000, 300000000000] false)
      300000000000 = .returns (false, none) ∧
    GetTimeFrameToReindex demoPc (demoStateOf demoDB [60000000000, 300000000000] true) =
      .returns ([60000000000, 300000000000], none) ∧
    GetTimeFrameToReindex demoPc (demoStateOf demoDB [60000000000, 300000000000] false) =
      .returns ([], none) :=
  ⟨rfl, by decide, by decide,
    GetTimeFrameToReindex_inconsistent demoPc
      (demoStateOf demoDB [60000000000, 300000000000] false) rfl⟩

/-! ## Point lookups -/

/-- What `GetLatestData` returns for a labelled timeframe: nothing when the
backward window from now down to the history start is empty, else what the
newest item of the window decodes to. -/
theorem GetLatestData_cases (pc : Pcommon) (state : AssetState) (timeframe : Duration)
    (label : Label) (hlabel : pc.TimeFrameToLabel timeframe = .ok label) :
    GetLatestData pc state timeframe =
      match scanWindow state label true pc.now state.DataHistoryTime0 with
      | [] => .returns ⟨none, TimeUnit.zero, none⟩
      | i :: _ =>
        match decodeItem pc state i with
        | .ok d => .returns ⟨some d, d.time, none⟩
        | .error e => .returns ⟨none, TimeUnit.zero, some e⟩ := by
  have hsupp : (decide ((1 : Int) > 1) && !IsTimeframeSupported pc state timeframe) = false := by
    simp
  unfold GetLatestData
  rw [GetDataLimitWith_eq _ pc state ⟨timeframe, 1, pc.now, true⟩ false label hsupp hlabel]
  simp only [if_true]
  unfold scanOutcome
  simp only []
  cases hW : scanWindow state label true pc.now state.DataHistoryTime0 with
  | nil => simp [collect, getSingleDataOf]
  | cons i rest =>
    simp only [collect]
    cases hd : decodeItem pc state i with
    | error e => simp [getSingleDataOf]
    | ok d => simp [getSingleDataOf, Data.GetTime]

/-- The backward lookup never panics. -/
theorem GetLatestData_returns (pc : Pcommon) (state : AssetState) (timeframe : Duration) :
    ∃ r, GetLatestData pc state timeframe = .returns r := by
  cases hlabel : pc.TimeFrameToLabel timeframe with
  | error e =>
    refine ⟨⟨none, TimeUnit.zero, some e⟩, ?_⟩
    unfold GetLatestData GetDataLimitWith
    simp [hlabel, getSingleDataOf]
  | ok label =>
    rw [GetLatestData_cases pc state timeframe label hlabel]
    cases scanWindow state label true pc.now state.DataHistoryTime0 with
    | nil => exact ⟨_, rfl⟩
    | cons i rest =>
      cases hd : decodeItem pc state i with
      | error e => exact ⟨⟨none, TimeUnit.zero, some e⟩, by simp only [hd]⟩
      | ok d => exact ⟨⟨some d, d.time, none⟩, by simp only [hd]⟩

/-! ## The frontier and the up-to-date decision -/

theorem bitLength_le (fuel n k : Nat) (h : n < 2 ^ k) : bitLength fuel n ≤ k := by
  induction fuel generalizing n k with
  | zero => simp [bitLength]
  | succ fuel ih =>
    unfold bitLength
    by_cases hn : n = 0
    · simp [hn]
    · rw [if_neg hn]
      cases k with
      | zero => simp at h; exact absurd h hn
      | succ k =>
        have h2 : n / 2 < 2 ^ k := by
          rw [pow_succ] at h
          omega
        have := ih (n / 2) k h2
        omega

/-- The conversion to `float64` is exact up to `2^53` in magnitude. -/
theorem float64OfInt_exact (x : Int) (h : x.natAbs ≤ 9007199254740992) : float64OfInt x = x := by
  rcases Nat.lt_or_ge x.natAbs 9007199254740992 with h1 | h1
  · have hb : bitLength 64 x.natAbs ≤ 53 := by
      apply bitLength_le
      have e : (2 : Nat) ^ 53 = 9007199254740992 := by norm_num
      rw [e]; exact h1
    unfold float64OfInt
    simp only [hb, if_true]
  · have h2 : x = 9007199254740992 ∨ x = -9007199254740992 := by omega
    rcases h2 with rfl | rfl <;> decide

theorem TimeUnit.ofInt_val (x : Int) (h1 : -9223372036854775808 ≤ x)
    (h2 : x ≤ 9223372036854775807) : (TimeUnit.ofInt x).val = x := by
  unfold TimeUnit.ofInt
  simp only
  omega

/-- Within the exactly representable range the frontier is the integer
maximum. -/
theorem frontier_exact (b c : TimeUnit) (hb : b.val.natAbs ≤ 9007199254740992)
    (hc : c.val.natAbs ≤ 9007199254740992) : (frontier b c).val = max b.val c.val := by
  unfold frontier timeUnitOfFloat64 mathMax
  rw [float64OfInt_exact _ hb, float64OfInt_exact _ hc]
  by_cases h : b.val < c.val
  · rw [if_pos h, TimeUnit.ofInt_val _ c.property.1 c.property.2]
    omega
  · rw [if_neg h, TimeUnit.ofInt_val _ b.property.1 b.property.2]
    omega

/-- The decision of `IsTimeframeIndexUpToDate` once its three lookups have
succeeded. -/
theorem IsTimeframeIndexUpToDate_eq (pc : Pcommon) (state : AssetState) (timeFrame : Duration)
    (c b l2 : TimeUnit)
    (hc : state.GetLastConsistencyTimeCached pc.MIN_TIME_FRAME = .ok c)
    (hb : GetLastTimeframeIndexingDate pc state pc.MIN_TIME_FRAME = .returns (b, none))
    (h2 : GetLastTimeframeIndexingDate pc state timeFrame = .returns (l2, none)) :
    IsTimeframeIndexUpToDate pc state timeFrame =
      if l2.val = 0 then .returns (false, none)
      else .returns (decide ((pc.Add l2 timeFrame).val > (frontier b c).val), none) := by
  unfold IsTimeframeIndexUpToDate
  simp only [hc, hb]
  rw [h2]
  rfl

theorem reindexLoop_eq (pc : Pcommon) (state : AssetState) (l acc : List Duration)
    (h : ∀ tf ∈ l, ∃ up, IsTimeframeIndexUpToDate pc state tf = .returns (up, none)) :
    reindexLoop pc state l acc =
      .returns (acc ++ l.filter (fun tf =>
        decide (IsTimeframeIndexUpToDate pc state tf = .returns (false, none))), none) := by
  induction l generalizing acc with
  | nil => simp [reindexLoop]
  | cons tf rest ih =>
    obtain ⟨up, hup⟩ := h tf (List.mem_cons_self _ _)
    have hrest := fun x hx => h x (List.mem_cons_of_mem _ hx)
    unfold reindexLoop
    rw [hup]
    cases up with
    | false =>
      simp only [Bool.not_false, if_true]
      rw [ih _ hrest]
      simp [List.filter_cons, hup]
    | true =>
      simp only [Bool.not_true, Bool.false_eq_true, if_false]
      rw [ih _ hrest]
      simp [List.filter_cons, hup]

/-- C11: when the base timeframe is consistent and every up-to-date check
returns without error, `GetTimeFrameToReindex` returns, with no error, the
active timeframes whose check is false, in the order of the active list: the
result is the filtered active list, a sub-sequence of it, and a timeframe is in
it iff it is active and not up to date. -/
theorem GetTimeFrameToReindex_stale (pc : Pcommon) (state : AssetState)
    (hcons : state.IsConsistent pc.MIN_TIME_FRAME = .ok true)
    (hok : ∀ tf ∈ GetActiveTimeFrameList state,
      ∃ up, IsTimeframeIndexUpToDate pc state tf = .returns (up, none)) :
    ∃ reindex : List Duration,
      GetTimeFrameToReindex pc state = .returns (reindex, none) ∧
      reindex = (GetActiveTimeFrameList state).filter (fun tf =>
        decide (IsTimeframeIndexUpToDate pc state tf = .returns (false, none))) ∧
      reindex.Sublist (GetActiveTimeFrameList state) ∧
      ∀ tf, tf ∈ reindex ↔ (tf ∈ GetActiveTimeFrameList state ∧
        IsTimeframeIndexUpToDate pc state tf = .returns (false, none)) := by
  refine ⟨_, ?_, rfl, List.filter_sublist _, ?_⟩
  · unfold GetTimeFrameToReindex
    rw [hcons]
    simp only [Bool.not_true, Bool.false_eq_true, if_false]
    rw [reindexLoop_eq pc state _ [] hok]
    simp
  · intro tf
    simp [List.mem_filter]

/-- C11, on an active list registered as five minutes then one minute: with the
checkpoint at 500 only the one-minute timeframe is stale; with the checkpoint
at 900 both are, and the result keeps the registration order. -/
theorem GetTimeFrameToReindex_stale_witness :
    ((demoStateAt demoDB [300000000000, 60000000000] (tu 500)).IsConsistent
        demoPc.MIN_TIME_FRAME = .ok true ∧
      ∀ tf ∈ GetActiveTimeFrameList (demoStateAt demoDB [300000000000, 60000000000] (tu 500)),
        ∃ up, IsTimeframeIndexUpToDate demoPc
          (demoStateAt demoDB [300000000000, 60000000000] (tu 500)) tf = .returns (up, none)) ∧
    GetTimeFrameToReindex demoPc (demoStateAt demoDB [300000000000, 60000000000] (tu 500)) =
      .returns ([60000000000], none) ∧
    GetTimeFrameToReindex demoPc (demoStateAt demoDB [300000000000, 60000000000] (tu 900)) =
      .returns ([300000000000, 60000000000], none) ∧
    ∃ reindex : List Duration,
      GetTimeFrameToReindex demoPc (demoStateAt demoDB [300000000000, 60000000000] (tu 500)) =
        .returns (reindex, none) ∧
      reindex = (GetActiveTimeFrameList
        (demoStateAt demoDB [300000000000, 60000000000] (tu 500))).filter (fun tf =>
          decide (IsTimeframeIndexUpToDate demoPc
            (demoStateAt demoDB [300000000000, 60000000000] (tu 500)) tf =
              .returns (false, none))) ∧
      reindex.Sublist
        (GetActiveTimeFrameList (demoStateAt demoDB [300000000000, 60000000000] (tu 500))) ∧
      ∀ tf, tf ∈ reindex ↔
        (tf ∈ GetActiveTimeFrameList (demoStateAt demoDB [300000000000, 60000000000] (tu 500)) ∧
          IsTimeframeIndexUpToDate demoPc
            (demoStateAt demoDB [300000000000, 60000000000] (tu 500)) tf =
              .returns (false, none)) :=
  have hok : ∀ tf ∈ GetActiveTimeFrameList
      (demoStateAt demoDB [300000000000, 60000000000] (tu 500)),
      ∃ up, IsTimeframeIndexUpToDate demoPc
        (demoStateAt demoDB [300000000000, 60000000000] (tu 500)) tf = .returns (up, none) := by
    intro tf htf
    have h : tf = 300000000000 ∨ tf = 60000000000 := by
      simpa [GetActiveTimeFrameList, demoStateAt] using htf
    rcases h with rfl | rfl
    · exact ⟨true, by decide⟩
    · exact ⟨false, by decide⟩
  ⟨⟨rfl, hok⟩, by decide, by decide,
    GetTimeFrameToReindex_stale demoPc (demoStateAt demoDB [300000000000, 60000000000] (tu 500))
      rfl hok⟩

/-- C12: when the last indexed time of the timeframe is 0 (no latest record, or
a latest record at time unit 0), `IsTimeframeIndexUpToDate` returns false and
no error, whatever the checkpoint `c` and the last indexed time `b` of the base
timeframe are. -/
theorem IsTimeframeIndexUpToDate_zero_sentinel (pc : Pcommon) (state : AssetState)
    (timeFrame : Duration) (c b l2 : TimeUnit)
    (hc : state.GetLastConsistencyTimeCached pc.MIN_TIME_FRAME = .ok c)
    (hb : GetLastTimeframeIndexingDate pc state pc.MIN_TIME_FRAME = .returns (b, none))
    (h2 : GetLastTimeframeIndexingDate pc state timeFrame = .returns (l2, none))
    (hzero : l2.val = 0) :
    IsTimeframeIndexUpToDate pc state timeFrame = .returns (false, none) := by
  rw [IsTimeframeIndexUpToDate_eq pc state timeFrame c b l2 hc hb h2, if_pos hzero]

/-- C12, on a five-minute timeframe whose only bar is at time unit 0 (the
frontier is 60, which 0 + 300 would exceed), and on a timeframe with no bar. -/
theorem IsTimeframeIndexUpToDate_zero_sentinel_witness :
    ((demoStateAt demoDB0 [] (tu 0)).GetLastConsistencyTimeCached demoPc.MIN_TIME_FRAME =
        .ok (tu 0) ∧
      GetLastTimeframeIndexingDate demoPc (demoStateAt demoDB0 [] (tu 0))
        demoPc.MIN_TIME_FRAME = .returns (tu 60, none) ∧
      GetLatestData demoPc (demoStateAt demoDB0 [] (tu 0)) 300000000000 =
        .returns ⟨some (bar 0), tu 0, none⟩ ∧
      GetLastTimeframeIndexingDate demoPc (demoStateAt demoDB0 [] (tu 0)) 300000000000 =
        .returns (tu 0, none) ∧
      (tu 0).val = 0) ∧
    IsTimeframeIndexUpToDate demoPc (demoStateAt demoDB5 [] (tu 0)) 60000000000 =
      .returns (false, none) ∧
    IsTimeframeIndexUpToDate demoPc (demoStateAt demoDB0 [] (tu 0)) 300000000000 =
      .returns (false, none) :=
  ⟨⟨rfl, by decide, by decide, by decide, by decide⟩, by decide,
    IsTimeframeIndexUpToDate_zero_sentinel demoPc (demoStateAt demoDB0 [] (tu 0)) 300000000000
      (tu 0) (tu 60) (tu 0) rfl (by decide) (by decide) (by decide)⟩

/-- C13: with a non-zero last indexed time `l2`, a checkpoint `c` and a base
last indexed time `b` of magnitude at most `2^53`, and `Add` adding the width
`w` of the timeframe to `l2`, `IsTimeframeIndexUpToDate` returns, with no
error, true iff `l2 + w > max b c`, that is iff the lag `max b c - l2` is less
than `w`. -/
theorem IsTimeframeIndexUpToDate_iff (pc : Pcommon) (state : AssetState)
    (timeFrame : Duration) (c b l2 : TimeUnit) (w : Int)
    (hc : state.GetLastConsistencyTimeCached pc.MIN_TIME_FRAME = .ok c)
    (hb : GetLastTimeframeIndexingDate pc state pc.MIN_TIME_FRAME = .returns (b, none))
    (h2 : GetLastTimeframeIndexingDate pc state timeFrame = .returns (l2, none))
    (hne : l2.val ≠ 0)
    (hb53 : b.val.natAbs ≤ 9007199254740992) (hc53 : c.val.natAbs ≤ 9007199254740992)
    (hadd : (pc.Add l2 timeFrame).val = l2.val + w) :
    ∃ up : Bool, IsTimeframeIndexUpToDate pc state timeFrame = .returns (up, none) ∧
      (up = true ↔ l2.val + w > max b.val c.val) ∧
      (up = true ↔ max b.val c.val - l2.val < w) := by
  refine ⟨decide ((pc.Add l2 timeFrame).val > (frontier b c).val), ?_, ?_, ?_⟩
  · rw [IsTimeframeIndexUpToDate_eq pc state timeFrame c b l2 hc hb h2, if_neg hne]
  · rw [decide_eq_true_eq, hadd, frontier_exact b c hb53 hc53]
  · rw [decide_eq_true_eq, hadd, frontier_exact b c hb53 hc53]
    constructor <;> intro h <;> omega

/-- C13, on five-minute bars last indexed at 300 against a frontier of
max 180 500 = 500: 300 + 300 > 500, up to date. -/
theorem IsTimeframeIndexUpToDate_iff_witness :
    ((demoStateAt demoDB [] (tu 500)).GetLastConsistencyTimeCached demoPc.MIN_TIME_FRAME =
        .ok (tu 500) ∧
      GetLastTimeframeIndexingDate demoPc (demoStateAt demoDB [] (tu 500))
        demoPc.MIN_TIME_FRAME = .returns (tu 180, none) ∧
      GetLastTimeframeIndexingDate demoPc (demoStateAt demoDB [] (tu 500)) 300000000000 =
        .returns (tu 300, none) ∧
      (tu 300).val ≠ 0 ∧ (tu 180).val.natAbs ≤ 9007199254740992 ∧
      (tu 500).val.natAbs ≤ 9007199254740992 ∧
      (demoPc.Add (tu 300) 300000000000).val = (tu 300).val + 300) ∧
    IsTimeframeIndexUpToDate demoPc (demoStateAt demoDB [] (tu 500)) 300000000000 =
      .returns (true, none) ∧
    ∃ up : Bool, IsTimeframeIndexUpToDate demoPc (demoStateAt demoDB [] (tu 500))
        300000000000 = .returns (up, none) ∧
      (up = true ↔ (tu 300).val + 300 > max (tu 180).val (tu 500).val) ∧
      (up = true ↔ max (tu 180).val (tu 500).val - (tu 300).val < 300) :=
  ⟨⟨rfl, by decide, by decide, by decide, by decide, by decide, by decide⟩, by decide,
    IsTimeframeIndexUpToDate_iff demoPc (demoStateAt demoDB [] (tu 500)) 300000000000
      (tu 500) (tu 180) (tu 300) 300 rfl (by decide) (by decide) (by decide) (by decide)
      (by decide) (by decide)⟩

/-- C14, as stated, fails at equality: five-minute bars last indexed at 300
reach the frontier 600 exactly (300 + 300 = 600), and the timeframe is reported
as not up to date. -/
theorem IsTimeframeIndexUpToDate_equality_counterexample :
    GetLastTimeframeIndexingDate demoPc (demoStateAt demoDB [] (tu 600)) 300000000000 =
      .returns (tu 300, none) ∧
    (tu 300).val ≠ 0 ∧
    frontier (tu 180) (tu 600) = tu 600 ∧
    (demoPc.Add (tu 300) 300000000000).val ≥ (tu 600).val ∧
    IsTimeframeIndexUpToDate demoPc (demoStateAt demoDB [] (tu 600)) 300000000000 =
      .returns (false, none) :=
  ⟨by decide, by decide, by decide, by decide, by decide⟩

/-- C14, amended: with a non-zero last indexed time `l2` and `Add` adding the
width `w` of the timeframe to it, `IsTimeframeIndexUpToDate` returns true when
`l2 + w` exceeds the frontier, and false when `l2 + w` equals it. -/
theorem IsTimeframeIndexUpToDate_strict (pc : Pcommon) (state : AssetState)
    (timeFrame : Duration) (c b l2 : TimeUnit) (w : Int)
    (hc : state.GetLastConsistencyTimeCached pc.MIN_TIME_FRAME = .ok c)
    (hb : GetLastTimeframeIndexingDate pc state pc.MIN_TIME_FRAME = .returns (b, none))
    (h2 : GetLastTimeframeIndexingDate pc state timeFrame = .returns (l2, none))
    (hne : l2.val ≠ 0)
    (hadd : (pc.Add l2 timeFrame).val = l2.val + w) :
    (l2.val + w > (frontier b c).val →
      IsTimeframeIndexUpToDate pc state timeFrame = .returns (true, none)) ∧
    (l2.val + w = (frontier b c).val →
      IsTimeframeIndexUpToDate pc state timeFrame = .returns (false, none)) := by
  rw [IsTimeframeIndexUpToDate_eq pc state timeFrame c b l2 hc hb h2, if_neg hne, hadd]
  constructor
  · intro h
    simp [h]
  · intro h
    have : ¬ l2.val + w > (frontier b c).val := by omega
    simp [this]

/-- C14 amended, one time unit on each side: frontier 599 is exceeded, frontier
600 is only reached. -/
theorem IsTimeframeIndexUpToDate_strict_witness :
    ((demoStateAt demoDB [] (tu 599)).GetLastConsistencyTimeCached demoPc.MIN_TIME_FRAME =
        .ok (tu 599) ∧
      GetLastTimeframeIndexingDate demoPc (demoStateAt demoDB [] (tu 599))
        demoPc.MIN_TIME_FRAME = .returns (tu 180, none) ∧
      GetLastTimeframeIndexingDate demoPc (demoStateAt demoDB [] (tu 599)) 300000000000 =
        .returns (tu 300, none) ∧
      (tu 300).val ≠ 0 ∧ (demoPc.Add (tu 300) 300000000000).val = (tu 300).val + 300 ∧
      (tu 300).val + 300 > (frontier (tu 180) (tu 599)).val ∧
      (tu 300).val + 300 = (frontier (tu 180) (tu 600)).val) ∧
    IsTimeframeIndexUpToDate demoPc (demoStateAt demoDB [] (tu 599)) 300000000000 =
      .returns (true, none) ∧
    IsTimeframeIndexUpToDate demoPc (demoStateAt demoDB [] (tu 600)) 300000000000 =
      .returns (false, none) :=
  ⟨⟨rfl, by decide, by decide, by decide, by decide, by decide, by decide⟩,
    (IsTimeframeIndexUpToDate_strict demoPc (demoStateAt demoDB [] (tu 599)) 300000000000
      (tu 599) (tu 180) (tu 300) 300 rfl (by decide) (by decide) (by decide) (by decide)).1
      (by decide),
    (IsTimeframeIndexUpToDate_strict demoPc (demoStateAt demoDB [] (tu 600)) 300000000000
      (tu 600) (tu 180) (tu 300) 300 rfl (by decide) (by decide) (by decide) (by decide)).2
      (by decide)⟩

/-- C18: the code evaluated where the claim fails. With the checkpoint at
`2^53 + 1` and the base last indexed at 180, the frontier comes out as `2^53`,
one less than the integer maximum; a five-minute timeframe last indexed 300
before the checkpoint, which only reaches the true maximum, is then reported as
up to date. -/
theorem frontier_rounds_above_2_pow_53 :
    max (tu 180).val (tu 9007199254740993).val = 9007199254740993 ∧
    (frontier (tu 180) (tu 9007199254740993)).val = 9007199254740992 ∧
    GetLastTimeframeIndexingDate (demoPcAt (tu 9007199254750000))
      (demoStateAt demoDBBig [] (tu 9007199254740993)) 300000000000 =
        .returns (tu 9007199254740693, none) ∧
    ((demoPcAt (tu 9007199254750000)).Add (tu 9007199254740693) 300000000000).val =
      9007199254740993 ∧
    IsTimeframeIndexUpToDate (demoPcAt (tu 9007199254750000))
      (demoStateAt demoDBBig [] (tu 9007199254740993)) 300000000000 = .returns (true, none) :=
  ⟨by decide, by decide, by decide, by decide, by decide⟩

/-! ## Read recording and errors of a range read -/

theorem rangeLoop_withOnNewRead (pc : Pcommon) (state : AssetState)
    (f : Duration → Option Err) (lk : Key) (l : List Item) (acc : DataList) :
    rangeLoop pc (state.withOnNewRead f) lk l acc = rangeLoop pc state lk l acc := by
  induction l generalizing acc with
  | nil => rfl
  | cons i rest ih =>
    unfold rangeLoop
    simp only [ih]
    rfl

theorem limitLoop_withOnNewRead (pc : Pcommon) (state : AssetState)
    (f : Duration → Option Err) (sk lk : Key) (rev : Bool) (limit : Int) (l : List Item)
    (acc : DataList) (c : Int) :
    limitLoop pc (state.withOnNewRead f) sk lk rev limit l acc c =
      limitLoop pc state sk lk rev limit l acc c := by
  induction l generalizing acc c with
  | nil => rfl
  | cons i rest ih =>
    unfold limitLoop
    simp only [ih]
    rfl

theorem GetDataLimitWith_withOnNewRead (latest : Outcome SingleResult) (pc : Pcommon)
    (state : AssetState) (f : Duration → Option Err) (s : DataLimitSettings) (rr : Bool) :
    GetDataLimitWith latest pc (state.withOnNewRead f) s rr =
      GetDataLimitWith latest pc state s rr := by
  unfold GetDataLimitWith
  simp only [limitLoop_withOnNewRead]
  rfl

theorem GetDataLimit_withOnNewRead (pc : Pcommon) (state : AssetState)
    (f : Duration → Option Err) (s : DataLimitSettings) (rr : Bool) :
    GetDataLimit pc (state.withOnNewRead f) s rr = GetDataLimit pc state s rr := by
  unfold GetDataLimit GetLatestData
  simp only [GetDataLimitWith_withOnNewRead]

theorem GetDataLimitWith_returned (latest : Outcome SingleResult) (pc : Pcommon)
    (state : AssetState) (s : DataLimitSettings) :
    returned (GetDataLimitWith latest pc state s true) =
      returned (GetDataLimitWith latest pc state s false) := by
  unfold GetDataLimitWith
  simp only []
  split
  · rfl
  · split
    · rfl
    · split
      · split <;> rfl
      · split
        · rfl
        · split
          · rfl
          · split <;> rfl

/-- C16: what a read returns does not depend on `recordReading` nor on the
read-recording step. `GetInDataRange` returns the same list and error with
`recordReading` set or not, and so does `GetDataLimit`; and both return the same
result whatever `onNewRead` returns, failure included. -/
theorem read_result_ignores_recording (pc : Pcommon) (state : AssetState) (t0 t1 : TimeUnit)
    (timeframe : Duration) (txn : Option Txn) (iter : Option Iterator)
    (settings : DataLimitSettings) (recordReading : Bool) (f : Duration → Option Err) :
    (GetInDataRange pc state t0 t1 timeframe txn iter true).list =
      (GetInDataRange pc state t0 t1 timeframe txn iter false).list ∧
    (GetInDataRange pc state t0 t1 timeframe txn iter true).err =
      (GetInDataRange pc state t0 t1 timeframe txn iter false).err ∧
    returned (GetDataLimit pc state settings true) =
      returned (GetDataLimit pc state settings false) ∧
    GetInDataRange pc (state.withOnNewRead f) t0 t1 timeframe txn iter recordReading =
      GetInDataRange pc state t0 t1 timeframe txn iter recordReading ∧
    GetDataLimit pc (state.withOnNewRead f) settings recordReading =
      GetDataLimit pc state settings recordReading := by
  refine ⟨?_, ?_, GetDataLimitWith_returned _ pc state settings, ?_,
    GetDataLimit_withOnNewRead pc state f settings recordReading⟩
  · unfold GetInDataRange
    split
    · rfl
    · split
      · rfl
      · simp only []
        split <;> rfl
  · unfold GetInDataRange
    split
    · rfl
    · split
      · rfl
      · simp only []
        split <;> rfl
  · unfold GetInDataRange
    simp only [rangeLoop_withOnNewRead]
    rfl

theorem collect_error_iff (pc : Pcommon) (state : AssetState) (cs : List Item) (c : Int)
    (hc : 0 ≤ c) :
    (∃ e, collect pc state 0 cs c = .error e) ↔
      ∃ i ∈ cs, ∃ e, decodeItem pc state i = .error e := by
  induction cs generalizing c with
  | nil => simp [collect]
  | cons i rest ih =>
    have hl : ¬ c + 1 = 0 := by omega
    simp only [collect, List.mem_cons, exists_eq_or_imp]
    cases hd : decodeItem pc state i with
    | error e => simp
    | ok d =>
      simp only [hl, if_false]
      have := ih (c + 1) (by omega)
      cases hr : collect pc state 0 rest (c + 1) with
      | error e =>
        rw [hr] at this
        have h2 := this.mp ⟨e, rfl⟩
        simpa using h2
      | ok ds =>
        rw [hr] at this
        have h2 : ¬ ∃ i ∈ rest, ∃ e, decodeItem pc state i = .error e := by
          intro hex
          obtain ⟨e, he⟩ := this.mpr hex
          simp at he
        simpa using h2

/-- C17: with its own forward cursor, `GetInDataRange` returns an error iff
`t1 < t0`, or the timeframe has no label, or an item of the snapshot with a key
in `[GetDataKey t0, GetDataKey t1)` fails to decode (its key, the copy of its
value, or its value); with an error the list is nil, and with no error there is
a list. -/
theorem GetInDataRange_error_iff (pc : Pcommon) (state : AssetState) (t0 t1 : TimeUnit)
    (timeframe : Duration) (txn : Option Txn) (recordReading : Bool) :
    ((GetInDataRange pc state t0 t1 timeframe txn none recordReading).err ≠ none ↔
      (t1.val < t0.val ∨ (∃ e, pc.TimeFrameToLabel timeframe = .error e) ∨
        ∃ label, pc.TimeFrameToLabel timeframe = .ok label ∧
          ∃ item ∈ (snapshotOf state txn).items,
            bytesCompare (state.GetDataKey label t0) item.key ≤ 0 ∧
            bytesCompare item.key (state.GetDataKey label t1) < 0 ∧
            ∃ e, decodeItem pc state item = .error e)) ∧
    ((GetInDataRange pc state t0 t1 timeframe txn none recordReading).err ≠ none →
      (GetInDataRange pc state t0 t1 timeframe txn none recordReading).list = none) ∧
    ((GetInDataRange pc state t0 t1 timeframe txn none recordReading).err = none →
      ∃ ret, (GetInDataRange pc state t0 t1 timeframe txn none recordReading).list =
        some ret) := by
  by_cases hr : t1.val < t0.val
  · have h : GetInDataRange pc state t0 t1 timeframe txn none recordReading =
        ⟨none, some "t1 must be after t0", none⟩ := by
      unfold GetInDataRange
      rw [if_pos hr]
    rw [h]
    simp [hr]
  · cases hlabel : pc.TimeFrameToLabel timeframe with
    | error e =>
      have h : GetInDataRange pc state t0 t1 timeframe txn none recordReading =
          ⟨none, some e, none⟩ := by
        unfold GetInDataRange
        rw [if_neg hr]
        simp only [hlabel]
      rw [h]
      simp
    | ok label =>
      rw [GetInDataRange_eq pc state t0 t1 timeframe label txn recordReading hlabel
        (not_lt.mp hr)]
      have hiff := collect_error_iff pc state ((snapshotOf state txn).items.filter (fun i =>
          decide (bytesCompare (state.GetDataKey label t0) i.key ≤ 0) &&
          decide (bytesCompare i.key (state.GetDataKey label t1) < 0))) 0 le_rfl
      cases hcol : collect pc state 0 ((snapshotOf state txn).items.filter (fun i =>
          decide (bytesCompare (state.GetDataKey label t0) i.key ≤ 0) &&
          decide (bytesCompare i.key (state.GetDataKey label t1) < 0))) 0 with
      | error e =>
        rw [hcol] at hiff
        have hex := hiff.mp ⟨e, rfl⟩
        obtain ⟨i, hi, e2, he2⟩ := hex
        simp only [List.mem_filter, Bool.and_eq_true, decide_eq_true_eq] at hi
        refine ⟨?_, ?_, ?_⟩
        · simp only [ne_eq, reduceCtorEq, not_false_eq_true, true_iff]
          exact Or.inr (Or.inr ⟨label, rfl, i, hi.1, hi.2.1, hi.2.2, e2, he2⟩)
        · intro _; rfl
        · intro h; simp at h
      | ok ds =>
        rw [hcol] at hiff
        refine ⟨?_, ?_, ?_⟩
        · simp only [ne_eq, not_true_eq_false, false_iff, not_or, not_exists]
          refine ⟨hr, fun e he => by simp at he, ?_⟩
          rintro label2 ⟨hl2, i, hi, h1, h2, e2, he2⟩
          simp only [Except.ok.injEq] at hl2
          subst hl2
          have : ∃ e, (Except.ok ds : Except Err (List Data)) = .error e :=
            hiff.mpr ⟨i, by simp [List.mem_filter, hi, h1, h2], e2, he2⟩
          obtain ⟨e, he⟩ := this
          simp at he
        · intro h; simp at h
        · intro _; exact ⟨ds, rfl⟩

/-! ## Latest and earliest record -/

/-- What `GetEarliestData` returns for a labelled timeframe whose latest lookup
found a record: nothing when the forward window from 0 up to the latest time is
empty, else what the oldest item of the window decodes to. -/
theorem GetEarliestData_cases (pc : Pcommon) (state : AssetState) (timeframe : Duration)
    (label : Label) (r : SingleResult) (d0 : Data)
    (hlabel : pc.TimeFrameToLabel timeframe = .ok label)
    (hlat : GetLatestData pc state timeframe = .returns r) (herr : r.err = none)
    (hdata : r.data = some d0) :
    GetEarliestData pc state timeframe =
      match scanWindow state label false TimeUnit.zero r.time with
      | [] => .returns ⟨none, TimeUnit.zero, none⟩
      | i :: _ =>
        match decodeItem pc state i with
        | .ok d => .returns ⟨some d, d.time, none⟩
        | .error e => .returns ⟨none, TimeUnit.zero, some e⟩ := by
  have hsupp : (decide ((1 : Int) > 1) && !IsTimeframeSupported pc state timeframe) = false := by
    simp
  unfold GetEarliestData getSingleData GetDataLimit
  rw [GetDataLimitWith_eq _ pc state ⟨timeframe, 1, TimeUnit.zero, false⟩ false label hsupp
    hlabel]
  simp only [Bool.false_eq_true, if_false, hlat, herr, hdata, Option.isSome_none,
    Option.isNone_some, Bool.or_self]
  unfold scanOutcome
  simp only []
  cases hW : scanWindow state label false TimeUnit.zero r.time with
  | nil => simp [collect, getSingleDataOf]
  | cons i rest =>
    simp only [collect]
    cases hd : decodeItem pc state i with
    | error e => simp [getSingleDataOf]
    | ok d => simp [getSingleDataOf, Data.GetTime]

/-- The item of a stored record whose time unit is in the window of a scan is in
the scan window. -/
theorem stored_mem_scanWindow {pc : Pcommon} {state : AssetState} {label : Label}
    (hmono : OrderPreserving state label) (rev : Bool) (offset limitTime : TimeUnit) {d : Data}
    (hs : StoredRecord pc state state.db label d)
    (hw : if rev then limitTime.val ≤ d.time.val ∧ d.time.val < offset.val
      else offset.val < d.time.val ∧ d.time.val ≤ limitTime.val) :
    ∃ j ∈ scanWindow state label rev offset limitTime,
      j.key = state.GetDataKey label d.time := by
  obtain ⟨j, hj, hk, _⟩ := hs
  refine ⟨j, ?_, hk⟩
  rw [scanWindow_mem, hk]
  refine ⟨hj, ?_⟩
  cases rev with
  | false =>
    simp only [Bool.false_eq_true, if_false] at hw ⊢
    exact ⟨(key_lt_iff hmono _ _).mpr hw.1, (key_le_iff hmono _ _).mpr hw.2⟩
  | true =>
    simp only [if_true] at hw ⊢
    exact ⟨(key_le_iff hmono _ _).mpr hw.1, (key_lt_iff hmono _ _).mpr hw.2⟩

theorem demo_decodes_at (now : TimeUnit) (active : List Duration) (c : Bool) (label : Label)
    (a b : TimeUnit) :
    DecodesBetween (demoPcAt now) (demoStateOf demoDB active c) demoDB label a b := by
  intro item hi _ _
  simp only [demoDB, demoItems, List.mem_cons, List.mem_singleton, List.not_mem_nil,
    or_false] at hi
  rcases hi with rfl | rfl | rfl | rfl | rfl | rfl <;> exact ⟨_, rfl⟩

/-! ## Forward pagination -/

/-- The decoding of candidates depends on the limit and the count only through
their difference. -/
theorem collect_shift (pc : Pcommon) (state : AssetState) (limit m : Int) (cs : List Item)
    (c : Int) : collect pc state (limit + m) cs (c + m) = collect pc state limit cs c := by
  induction cs generalizing c with
  | nil => rfl
  | cons i rest ih =>
    simp only [collect]
    cases hd : decodeItem pc state i with
    | error e => rfl
    | ok d =>
      simp only []
      by_cases hl : c + 1 = limit
      · have hl2 : c + m + 1 = limit + m := by omega
        simp only [hl, hl2, if_true]
      · have hl2 : ¬ c + m + 1 = limit + m := by omega
        have e : c + m + 1 = c + 1 + m := by ring
        simp only [hl, hl2, if_false]
        rw [e, ih (c + 1)]

/-- Candidates that decode and stay under the limit are collected, and the
decoding goes on with the rest. -/
theorem collect_append (pc : Pcommon) (state : AssetState) (limit : Int) (A B : List Item)
    (c : Int) (hA : ∀ i ∈ A, decodeItem pc state i = .ok (decodeD pc state i))
    (hlt : c + A.length < limit) :
    collect pc state limit (A ++ B) c =
      match collect pc state limit B (c + A.length) with
      | .error e => .error e
      | .ok ds => .ok (A.map (decodeD pc state) ++ ds) := by
  induction A generalizing c with
  | nil =>
    simp only [List.nil_append, List.length_nil, Nat.cast_zero, add_zero, List.map_nil]
    cases collect pc state limit B c <;> rfl
  | cons a A ih =>
    have ha := hA a (List.mem_cons_self _ _)
    have hrest : ∀ i ∈ A, decodeItem pc state i = .ok (decodeD pc state i) :=
      fun i hi => hA i (List.mem_cons_of_mem _ hi)
    simp only [List.length_cons, Nat.cast_add, Nat.cast_one] at hlt
    have hl : ¬ c + 1 = limit := by omega
    simp only [List.cons_append, collect, ha, hl, if_false, List.append_eq]
    rw [ih (c + 1) hrest (by omega)]
    have e : c + 1 + (A.length : Int) = c + ((a :: A).length : Int) := by
      simp only [List.length_cons, Nat.cast_add, Nat.cast_one]
      ring
    rw [e]
    cases collect pc state limit B (c + ((a :: A).length : Int)) <;> simp

/-- In a list ascending in its keys, the items after `x` are those with a key
greater than the key of `x`. -/
theorem filter_after_split (A B : List Item) (x : Item)
    (hs : (A ++ x :: B).Pairwise (fun a b => bytesCompare a.key b.key < 0)) :
    (A ++ x :: B).filter (fun i => decide (bytesCompare x.key i.key < 0)) = B := by
  rw [List.pairwise_append] at hs
  obtain ⟨_, hxB, hAx⟩ := hs
  rw [List.pairwise_cons] at hxB
  have hA : A.filter (fun i => decide (bytesCompare x.key i.key < 0)) = [] := by
    rw [List.filter_eq_nil_iff]
    intro a ha
    have h1 := hAx a ha x (List.mem_cons_self _ _)
    have h2 := bytesCompare_swap a.key x.key
    simp only [decide_eq_true_eq]
    omega
  have hx : ¬ bytesCompare x.key x.key < 0 := by
    rw [bytesCompare_self]; omega
  have hB : B.filter (fun i => decide (bytesCompare x.key i.key < 0)) = B := by
    rw [List.filter_eq_self]
    intro b hb
    simpa using hxB.1 b hb
  rw [List.filter_append, List.filter_cons, hA, hB]
  simp [hx]

theorem pairwise_le_getLast (l : DataList) (hne : l ≠ [])
    (hs : l.Pairwise (fun x y => x.time.val < y.time.val)) :
    ∀ d ∈ l, d.time.val ≤ (l.getLast hne).time.val := by
  intro d hd
  have hsplit := List.dropLast_append_getLast hne
  rw [← hsplit] at hs hd
  rw [List.pairwise_append] at hs
  rcases List.mem_append.mp hd with h | h
  · exact le_of_lt (hs.2.2 d h _ (List.mem_singleton_self _))
  · rw [List.mem_singleton] at h
    rw [h]

/-- C15: forward pagination neither repeats nor skips a record. On a supported
timeframe over a well-formed key space, with `Limit = n >= 1`: if the forward
read from `o` returns a non-empty page 1, and the forward read from the time
unit of the last record of page 1 returns page 2, then no record of page 1 is
in page 2, and the forward read from `o` with `Limit = 2 n` returns page 1
followed by page 2. -/
theorem GetDataLimit_forward_pages (pc : Pcommon) (state : AssetState) (timeframe : Duration)
    (n : Int) (o : TimeUnit) (recordReading : Bool) (out1 out2 : ReadOutcome)
    (p1 p2 : DataList)
    (hks : KeySpaceOK pc state timeframe)
    (hsup : IsTimeframeSupported pc state timeframe = true) (hn : 1 ≤ n)
    (h1 : GetDataLimit pc state ⟨timeframe, n, o, false⟩ recordReading = .returns out1)
    (hl1 : out1.list = some p1) (hne : p1 ≠ [])
    (h2 : GetDataLimit pc state ⟨timeframe, n, (p1.getLast hne).time, false⟩ recordReading =
      .returns out2)
    (hl2 : out2.list = some p2) :
    (∀ d ∈ p1, d ∉ p2) ∧
    GetDataLimit pc state ⟨timeframe, 2 * n, o, false⟩ recordReading =
      .returns ⟨some (p1 ++ p2), none, if recordReading then some timeframe else none⟩ := by
  -- the two pages never share a record
  have hdisj : ∀ d ∈ p1, d ∉ p2 := by
    obtain ⟨_, _, _, hs1, _⟩ := GetDataLimit_bounds hks h1 hl1
    obtain ⟨_, _, _, _, hb2⟩ := GetDataLimit_bounds hks h2 hl2
    intro d hd1 hd2
    have ha := pairwise_le_getLast p1 hne hs1 d hd1
    have hb := hb2 d hd2
    simp only [Bool.false_eq_true, if_false] at hb
    omega
  refine ⟨hdisj, ?_⟩
  obtain ⟨label, lt1, ds1, hlabel, _, hlat1, hc1, hret1, _⟩ := GetDataLimit_list h1 hl1
  obtain ⟨label2, lt2, ds2, hlabel2, _, hlat2, hc2, hret2, _⟩ := GetDataLimit_list h2 hl2
  simp only [Bool.false_eq_true, if_false] at hret1 hret2 hc1 hc2
  obtain ⟨r, hr, herr, hdata, hrt⟩ := hlat1 rfl
  obtain ⟨r2, hr2, _, _, hrt2⟩ := hlat2 rfl
  simp only [] at hlabel hlabel2 hr hr2
  rw [hlabel] at hlabel2
  simp only [Except.ok.injEq] at hlabel2
  subst hlabel2
  rw [hr] at hr2
  simp only [Outcome.returns.injEq] at hr2
  subst hr2
  rw [hrt] at hrt2
  subst hrt2
  subst hret1 hret2
  obtain ⟨hmono, hsound⟩ := hks label hlabel
  obtain ⟨k1, hk1le, hds1, hdec1, hk1lim, hk1or⟩ := collect_ok hc1
  obtain ⟨W, hW⟩ : ∃ W, W = scanWindow state label false o lt1 := ⟨_, rfl⟩
  rw [← hW] at hc1 hk1le hds1 hdec1 hk1or
  have hWmem : ∀ i ∈ W, i ∈ scanWindow state label false o lt1 := by
    intro i hi; rw [← hW]; exact hi
  have hWsorted : W.Pairwise (fun a b => bytesCompare a.key b.key < 0) := by
    have := scanWindow_sorted state label false o lt1
    simp only [Bool.false_eq_true, if_false] at this
    rw [hW]; exact this
  -- the last item of page 1
  have hT : W.take k1 ≠ [] := by
    intro h
    rw [h] at hds1
    exact hne hds1
  have hmapne : (W.take k1).map (decodeD pc state) ≠ [] := by
    rw [← hds1]; exact hne
  have hlast : p1.getLast hne = decodeD pc state ((W.take k1).getLast hT) := by
    rw [← List.getLast_map (decodeD pc state) (W.take k1) hmapne]
    exact List.getLast_congr _ _ hds1
  obtain ⟨x, hx⟩ : ∃ x, x = (W.take k1).getLast hT := ⟨_, rfl⟩
  rw [← hx] at hlast
  have hxT : x ∈ W.take k1 := by rw [hx]; exact List.getLast_mem hT
  have hxW : x ∈ W := List.mem_of_mem_take hxT
  have hxd := hdec1 x hxT
  obtain ⟨hxk, _⟩ := scanWindow_decoded hmono hsound (hWmem x hxW) hxd
  obtain ⟨_, hxwin⟩ := scanWindow_mem.mp (hWmem x hxW)
  simp only [Bool.false_eq_true, if_false] at hxwin
  have hsplit : (W.take k1).dropLast ++ x :: W.drop k1 = W := by
    have e1 := List.dropLast_append_getLast hT
    rw [← hx] at e1
    have e2 := List.take_append_drop k1 W
    rw [← e1] at e2
    simpa using e2
  -- the window of page 2 is what is left of the window of page 1
  have hW2 : scanWindow state label false (p1.getLast hne).time lt1 = W.drop k1 := by
    have hf := filter_after_split _ _ x (hsplit ▸ hWsorted)
    rw [hsplit] at hf
    rw [← hf, hlast, hW]
    simp only [scanWindow, Bool.false_eq_true, if_false, List.filter_filter]
    apply List.filter_congr
    intro i _
    rw [← hxk]
    by_cases h : bytesCompare x.key i.key < 0
    · have h3 : bytesCompare (state.GetDataKey label o) i.key < 0 :=
        bytesCompare_trans hxwin.1 h
      simp [h, h3]
    · simp [h]
  rw [hW2] at hc2
  have hlen : ((W.take k1).length : Int) = k1 := by
    rw [List.length_take, Nat.min_eq_left hk1le]
  have hk := hk1lim (by omega)
  have hrest : collect pc state (2 * n) (W.drop k1) (0 + ((W.take k1).length : Int)) =
      .ok p2 := by
    rw [hlen]
    rcases hk1or with h | h
    · have hD : W.drop k1 = [] := by rw [h]; exact List.drop_length _
      rw [hD] at hc2 ⊢
      simp only [collect, Except.ok.injEq] at hc2 ⊢
      exact hc2
    · have e : 2 * n = n + k1 := by omega
      rw [e, collect_shift]
      exact hc2
  have hcol : collect pc state (2 * n) W 0 = .ok (p1 ++ p2) := by
    have e2 := List.take_append_drop k1 W
    rw [← e2, collect_append pc state (2 * n) _ _ 0 hdec1 (by rw [hlen]; omega), hrest,
      ← hds1]
  have hsupp : (decide (2 * n > 1) && !IsTimeframeSupported pc state timeframe) = false := by
    simp [hsup]
  have hnot : (r.err.isSome || r.data.isNone) = false := by
    cases hd : r.data with
    | none => simp [hd] at hdata
    | some d => simp [herr]
  unfold GetDataLimit
  rw [GetDataLimitWith_eq _ pc state ⟨timeframe, 2 * n, o, false⟩ recordReading label hsupp
    hlabel]
  simp only [Bool.false_eq_true, if_false, hr, hnot]
  unfold scanOutcome
  simp only [Bool.false_eq_true, if_false, hrt, ← hW, hcol]

/-- C15, over bars at 0, 60, 120, 180 with `Limit = 2` from 0: page 1 is the
bars at 60 and 120, page 2 (from 120) the bar at 180, and the read with
`Limit = 4` returns the three of them. -/
theorem GetDataLimit_forward_pages_witness :
    (KeySpaceOK demoPc demoState 60000000000 ∧
      IsTimeframeSupported demoPc demoState 60000000000 = true ∧ (1 : Int) ≤ 2 ∧
      GetDataLimit demoPc demoState ⟨60000000000, 2, tu 0, false⟩ false =
        .returns ⟨some [bar 60, bar 120], none, none⟩ ∧
      GetDataLimit demoPc demoState ⟨60000000000, 2, tu 120, false⟩ false =
        .returns ⟨some [bar 180], none, none⟩) ∧
    (∀ d ∈ ([bar 60, bar 120] : DataList), d ∉ ([bar 180] : DataList)) ∧
    GetDataLimit demoPc demoState ⟨60000000000, 2 * 2, tu 0, false⟩ false =
      .returns ⟨some ([bar 60, bar 120] ++ [bar 180]), none,
        if false = true then some 60000000000 else none⟩ :=
  ⟨⟨demo_keyspace _ _, rfl, by decide, by decide, by decide⟩,
    GetDataLimit_forward_pages demoPc demoState 60000000000 2 (tu 0) false
      ⟨some [bar 60, bar 120], none, none⟩ ⟨some [bar 180], none, none⟩ [bar 60, bar 120]
      [bar 180] (demo_keyspace _ _) rfl (by decide) (by decide) rfl (List.cons_ne_nil _ _)
      (by decide) rfl⟩

/-! ## Reads over a window that may hold undecodable items -/

/-- Key decoding stays sound on a store whose keys are keys of a store on which
it is sound. -/
theorem DecodeSound_of_keys {s1 s2 : AssetState} {db1 db2 : DB} {label : Label}
    (hs : DecodeSound s1 db1 label) (hG : s2.GetDataKey = s1.GetDataKey)
    (hP : s2.ParseDataKey = s1.ParseDataKey)
    (hk : ∀ i ∈ db2.items, ∃ j ∈ db1.items, j.key = i.key) : DecodeSound s2 db2 label := by
  intro item hi a b l t ha hb hp
  obtain ⟨j, hj, hjk⟩ := hk item hi
  rw [hG] at ha hb ⊢
  rw [hP] at hp
  rw [← hjk] at ha hb hp ⊢
  exact hs j hj a b l t ha hb hp

theorem demo_sound_bad60 (active : List Duration) (c : Bool) :
    DecodeSound (demoStateOf demoDBBad60 active c) demoDBBad60 "1m" := by
  refine DecodeSound_of_keys (demo_sound active c) rfl rfl ?_
  intro i hi
  simp only [demoDBBad60, List.mem_cons, List.mem_singleton, List.not_mem_nil,
    or_false] at hi
  rcases hi with rfl | rfl | rfl | rfl
  · exact ⟨demoItem "1m" 0, by simp [demoDB, demoItems], rfl⟩
  · exact ⟨demoItem "1m" 60, by simp [demoDB, demoItems], rfl⟩
  · exact ⟨demoItem "1m" 120, by simp [demoDB, demoItems], rfl⟩
  · exact ⟨demoItem "1m" 180, by simp [demoDB, demoItems], rfl⟩

/-- C19, as stated, fails: with the clock at 180 over bars at 0, 60, 120, 180
where the value of the bar at 120 is malformed, the bars at 0 and 60 are
records of the window, yet `GetLatestData` returns the decode error of the bar
at 120 and no record. -/
theorem GetLatestData_undecodable_counterexample :
    (demoPcAt (tu 180)).TimeFrameToLabel 60000000000 = .ok "1m" ∧
    StoredRecord (demoPcAt (tu 180)) (demoStateOf demoDBBad120 [] true)
      (demoStateOf demoDBBad120 [] true).db "1m" (bar 60) ∧
    (demoStateOf demoDBBad120 [] true).DataHistoryTime0.val ≤ (bar 60).time.val ∧
    (bar 60).time.val < (demoPcAt (tu 180)).now.val ∧
    GetLatestData (demoPcAt (tu 180)) (demoStateOf demoDBBad120 [] true) 60000000000 =
      .returns ⟨none, TimeUnit.zero, some "malformed value"⟩ :=
  ⟨rfl, ⟨demoItem "1m" 60, by simp [demoStateOf, demoDBBad120], rfl, [60], rfl, rfl⟩,
    by decide, by decide, by decide⟩

/-- C19, amended: for a labelled timeframe over a well-formed key space, if an
item of the timeframe is stored at a time unit in `[DataHistoryTime0, now)`,
`GetLatestData` decodes the stored item `i` with the greatest key in
`[GetDataKey DataHistoryTime0, GetDataKey now)`. If `i` decodes, it returns,
with no error, that record with its own time unit, which lies in
`[DataHistoryTime0, now)` and is the greatest time unit stored for the
timeframe there. If `i` does not decode, it returns the nil record, time unit 0
and the decode error. -/
theorem GetLatestData_greatest (pc : Pcommon) (state : AssetState) (timeframe : Duration)
    (label : Label) (hlabel : pc.TimeFrameToLabel timeframe = .ok label)
    (hmono : OrderPreserving state label) (hsound : DecodeSound state state.db label)
    (hex : ∃ t : TimeUnit, StoredAt state label t ∧
      state.DataHistoryTime0.val ≤ t.val ∧ t.val < pc.now.val) :
    ∃ i ∈ state.db.items,
      bytesCompare (state.GetDataKey label state.DataHistoryTime0) i.key ≤ 0 ∧
      bytesCompare i.key (state.GetDataKey label pc.now) < 0 ∧
      (∀ j ∈ state.db.items,
        bytesCompare (state.GetDataKey label state.DataHistoryTime0) j.key ≤ 0 →
        bytesCompare j.key (state.GetDataKey label pc.now) < 0 →
        bytesCompare j.key i.key ≤ 0) ∧
      (∀ d, decodeItem pc state i = .ok d →
        GetLatestData pc state timeframe = .returns ⟨some d, d.time, none⟩ ∧
        StoredRecord pc state state.db label d ∧
        state.DataHistoryTime0.val ≤ d.time.val ∧ d.time.val < pc.now.val ∧
        ∀ t1 : TimeUnit, StoredAt state label t1 →
          state.DataHistoryTime0.val ≤ t1.val → t1.val < pc.now.val →
          t1.val ≤ d.time.val) ∧
      (∀ e, decodeItem pc state i = .error e →
        GetLatestData pc state timeframe = .returns ⟨none, TimeUnit.zero, some e⟩) := by
  obtain ⟨t0, ⟨i0, hi0, hk0⟩, h0a, h0b⟩ := hex
  have hi0W : i0 ∈ scanWindow state label true pc.now state.DataHistoryTime0 := by
    rw [scanWindow_mem, hk0]
    simp only [if_true]
    exact ⟨hi0, (key_le_iff hmono _ _).mpr h0a, (key_lt_iff hmono _ _).mpr h0b⟩
  have hcases := GetLatestData_cases pc state timeframe label hlabel
  have hsorted := scanWindow_sorted state label true pc.now state.DataHistoryTime0
  cases hW : scanWindow state label true pc.now state.DataHistoryTime0 with
  | nil => rw [hW] at hi0W; simp at hi0W
  | cons i rest =>
    have hiW : i ∈ scanWindow state label true pc.now state.DataHistoryTime0 := by
      rw [hW]; exact List.mem_cons_self _ _
    obtain ⟨hi, hwin⟩ := scanWindow_mem.mp hiW
    simp only [if_true] at hwin
    rw [hW] at hcases hsorted
    rw [List.pairwise_cons] at hsorted
    have hmax : ∀ j ∈ state.db.items,
        bytesCompare (state.GetDataKey label state.DataHistoryTime0) j.key ≤ 0 →
        bytesCompare j.key (state.GetDataKey label pc.now) < 0 →
        bytesCompare j.key i.key ≤ 0 := by
      intro j hj h1 h2
      have hjW : j ∈ scanWindow state label true pc.now state.DataHistoryTime0 := by
        rw [scanWindow_mem]
        simp only [if_true]
        exact ⟨hj, h1, h2⟩
      rw [hW] at hjW
      rcases List.mem_cons.mp hjW with heq | hjr
      · rw [heq, bytesCompare_self]
      · have hlt := hsorted.1 j hjr
        simp only [if_true] at hlt
        exact le_of_lt hlt
    refine ⟨i, hi, hwin.1, hwin.2, hmax, ?_, ?_⟩
    · intro d hd
      obtain ⟨hk, hb⟩ := scanWindow_decoded hmono hsound hiW hd
      simp only [if_true] at hb
      simp only [hd] at hcases
      refine ⟨hcases, ?_, hb.1, hb.2, ?_⟩
      · obtain ⟨l, v, _, hv, hp⟩ := decodeItem_ok hd
        exact ⟨i, hi, hk, v, hv, hp⟩
      · rintro t1 ⟨j, hj, hkj⟩ h1 h2
        have := hmax j hj (by rw [hkj]; exact (key_le_iff hmono _ _).mpr h1)
          (by rw [hkj]; exact (key_lt_iff hmono _ _).mpr h2)
        rw [hkj, hk] at this
        exact (key_le_iff hmono _ _).mp this
    · intro e he
      simp only [he] at hcases
      exact hcases

/-- C19 amended, with the clock at 120 over bars at 0, 60, 120, 180: the bar at
60 is the latest, the bars at 120 and 180 are not returned; and on the store
where the bar at 120 is malformed, with the clock at 180, that bar is the
newest of the window and its decode error is returned. -/
theorem GetLatestData_greatest_witness :
    ((demoPcAt (tu 120)).TimeFrameToLabel 60000000000 = .ok "1m" ∧
      OrderPreserving demoState "1m" ∧ DecodeSound demoState demoState.db "1m" ∧
      ∃ t : TimeUnit, StoredAt demoState "1m" t ∧
        demoState.DataHistoryTime0.val ≤ t.val ∧ t.val < (demoPcAt (tu 120)).now.val) ∧
    GetLatestData (demoPcAt (tu 120)) demoState 60000000000 =
      .returns ⟨some (bar 60), tu 60, none⟩ ∧
    GetLatestData (demoPcAt (tu 180)) (demoStateOf demoDBBad120 [] true) 60000000000 =
      .returns ⟨none, TimeUnit.zero, some "malformed value"⟩ ∧
    ∃ i ∈ demoState.db.items,
      bytesCompare (demoState.GetDataKey "1m" demoState.DataHistoryTime0) i.key ≤ 0 ∧
      bytesCompare i.key (demoState.GetDataKey "1m" (demoPcAt (tu 120)).now) < 0 ∧
      (∀ j ∈ demoState.db.items,
        bytesCompare (demoState.GetDataKey "1m" demoState.DataHistoryTime0) j.key ≤ 0 →
        bytesCompare j.key (demoState.GetDataKey "1m" (demoPcAt (tu 120)).now) < 0 →
        bytesCompare j.key i.key ≤ 0) ∧
      (∀ d, decodeItem (demoPcAt (tu 120)) demoState i = .ok d →
        GetLatestData (demoPcAt (tu 120)) demoState 60000000000 =
          .returns ⟨some d, d.time, none⟩ ∧
        StoredRecord (demoPcAt (tu 120)) demoState demoState.db "1m" d ∧
        demoState.DataHistoryTime0.val ≤ d.time.val ∧
        d.time.val < (demoPcAt (tu 120)).now.val ∧
        ∀ t1 : TimeUnit, StoredAt demoState "1m" t1 →
          demoState.DataHistoryTime0.val ≤ t1.val → t1.val < (demoPcAt (tu 120)).now.val →
          t1.val ≤ d.time.val) ∧
      (∀ e, decodeItem (demoPcAt (tu 120)) demoState i = .error e →
        GetLatestData (demoPcAt (tu 120)) demoState 60000000000 =
          .returns ⟨none, TimeUnit.zero, some e⟩) :=
  have hex : ∃ t : TimeUnit, StoredAt demoState "1m" t ∧
      demoState.DataHistoryTime0.val ≤ t.val ∧ t.val < (demoPcAt (tu 120)).now.val :=
    ⟨tu 0, ⟨demoItem "1m" 0, by simp [demoState, demoStateOf, demoDB, demoItems], rfl⟩,
      by decide, by decide⟩
  ⟨⟨rfl, demo_mono _ _ _ _, demo_sound _ _, hex⟩, by decide, by decide,
    GetLatestData_greatest (demoPcAt (tu 120)) demoState 60000000000 "1m" rfl
      (demo_mono _ _ _ _) (demo_sound _ _) hex⟩

/-- C20, as stated, fails: over bars at 0, 60, 120, 180 where the value of the
bar at 60 is malformed, `GetLatestData` finds the bar at 180 and the bar at 120
is a record with `0 < t <= 180`, yet `GetEarliestData` returns the decode error
of the bar at 60 and no record. -/
theorem GetEarliestData_undecodable_counterexample :
    demoPc.TimeFrameToLabel 60000000000 = .ok "1m" ∧
    GetLatestData demoPc (demoStateOf demoDBBad60 [] true) 60000000000 =
      .returns ⟨some (bar 180), tu 180, none⟩ ∧
    StoredRecord demoPc (demoStateOf demoDBBad60 [] true)
      (demoStateOf demoDBBad60 [] true).db "1m" (bar 120) ∧
    0 < (bar 120).time.val ∧ (bar 120).time.val ≤ (tu 180).val ∧
    GetEarliestData demoPc (demoStateOf demoDBBad60 [] true) 60000000000 =
      .returns ⟨none, TimeUnit.zero, some "malformed value"⟩ :=
  ⟨rfl, by decide,
    ⟨demoItem "1m" 120, by simp [demoStateOf, demoDBBad60], rfl, [120], rfl, rfl⟩,
    by decide, by decide, by decide⟩

/-- C20, amended: for a labelled timeframe over a well-formed key space, when
`GetLatestData` finds a record at time unit `L`, either no item of the
timeframe is stored at a time unit `t` with `0 < t <= L` and `GetEarliestData`
returns the nil record, time unit 0 and no error; or `GetEarliestData` decodes
the stored item `i` with the smallest key after `GetDataKey 0` up to
`GetDataKey L`. If `i` decodes, it returns, with no error, that record with its
own time unit, which is the smallest time unit stored for the timeframe in
`(0, L]`. If `i` does not decode, it returns the nil record, time unit 0 and
the decode error. -/
theorem GetEarliestData_smallest (pc : Pcommon) (state : AssetState) (timeframe : Duration)
    (label : Label) (found : Data) (L : TimeUnit)
    (hlabel : pc.TimeFrameToLabel timeframe = .ok label)
    (hmono : OrderPreserving state label) (hsound : DecodeSound state state.db label)
    (hlat : GetLatestData pc state timeframe = .returns ⟨some found, L, none⟩) :
    (GetEarliestData pc state timeframe = .returns ⟨none, TimeUnit.zero, none⟩ ∧
      ¬ ∃ t : TimeUnit, StoredAt state label t ∧ 0 < t.val ∧ t.val ≤ L.val) ∨
    ∃ i ∈ state.db.items,
      bytesCompare (state.GetDataKey label TimeUnit.zero) i.key < 0 ∧
      bytesCompare i.key (state.GetDataKey label L) ≤ 0 ∧
      (∀ j ∈ state.db.items,
        bytesCompare (state.GetDataKey label TimeUnit.zero) j.key < 0 →
        bytesCompare j.key (state.GetDataKey label L) ≤ 0 →
        bytesCompare i.key j.key ≤ 0) ∧
      (∀ d, decodeItem pc state i = .ok d →
        GetEarliestData pc state timeframe = .returns ⟨some d, d.time, none⟩ ∧
        StoredRecord pc state state.db label d ∧ 0 < d.time.val ∧ d.time.val ≤ L.val ∧
        ∀ t1 : TimeUnit, StoredAt state label t1 → 0 < t1.val → t1.val ≤ L.val →
          d.time.val ≤ t1.val) ∧
      (∀ e, decodeItem pc state i = .error e →
        GetEarliestData pc state timeframe = .returns ⟨none, TimeUnit.zero, some e⟩) := by
  have hcases := GetEarliestData_cases pc state timeframe label ⟨some found, L, none⟩ found
    hlabel hlat rfl rfl
  simp only [] at hcases
  have hsorted := scanWindow_sorted state label false TimeUnit.zero L
  have hz : TimeUnit.zero.val = 0 := rfl
  cases hW : scanWindow state label false TimeUnit.zero L with
  | nil =>
    left
    rw [hW] at hcases
    refine ⟨hcases, ?_⟩
    rintro ⟨t1, ⟨j, hj, hkj⟩, h1, h2⟩
    have hjW : j ∈ scanWindow state label false TimeUnit.zero L := by
      rw [scanWindow_mem, hkj]
      simp only [Bool.false_eq_true, if_false]
      exact ⟨hj, (key_lt_iff hmono _ _).mpr (by rw [hz]; exact h1),
        (key_le_iff hmono _ _).mpr h2⟩
    rw [hW] at hjW
    simp at hjW
  | cons i rest =>
    right
    have hiW : i ∈ scanWindow state label false TimeUnit.zero L := by
      rw [hW]; exact List.mem_cons_self _ _
    obtain ⟨hi, hwin⟩ := scanWindow_mem.mp hiW
    simp only [Bool.false_eq_true, if_false] at hwin
    rw [hW] at hcases hsorted
    rw [List.pairwise_cons] at hsorted
    have hmin : ∀ j ∈ state.db.items,
        bytesCompare (state.GetDataKey label TimeUnit.zero) j.key < 0 →
        bytesCompare j.key (state.GetDataKey label L) ≤ 0 →
        bytesCompare i.key j.key ≤ 0 := by
      intro j hj h1 h2
      have hjW : j ∈ scanWindow state label false TimeUnit.zero L := by
        rw [scanWindow_mem]
        simp only [Bool.false_eq_true, if_false]
        exact ⟨hj, h1, h2⟩
      rw [hW] at hjW
      rcases List.mem_cons.mp hjW with heq | hjr
      · rw [heq, bytesCompare_self]
      · have hlt := hsorted.1 j hjr
        simp only [Bool.false_eq_true, if_false] at hlt
        exact le_of_lt hlt
    refine ⟨i, hi, hwin.1, hwin.2, hmin, ?_, ?_⟩
    · intro d hd
      obtain ⟨hk, hb⟩ := scanWindow_decoded hmono hsound hiW hd
      simp only [Bool.false_eq_true, if_false, hz] at hb
      simp only [hd] at hcases
      refine ⟨hcases, ?_, hb.1, hb.2, ?_⟩
      · obtain ⟨l, v, _, hv, hp⟩ := decodeItem_ok hd
        exact ⟨i, hi, hk, v, hv, hp⟩
      · rintro t1 ⟨j, hj, hkj⟩ h1 h2
        have := hmin j hj
          (by rw [hkj]; exact (key_lt_iff hmono _ _).mpr (by rw [hz]; exact h1))
          (by rw [hkj]; exact (key_le_iff hmono _ _).mpr h2)
        rw [hkj, hk] at this
        exact (key_le_iff hmono _ _).mp this
    · intro e he
      simp only [he] at hcases
      exact hcases

/-- C20 amended, over bars at 0, 60, 120, 180 with the latest at 180: the bar
at 0 is skipped and the bar at 60 is the earliest; where the bar at 60 is
malformed its decode error is returned; and where the only bar is at 0 nothing
is returned. -/
theorem GetEarliestData_smallest_witness :
    (demoPc.TimeFrameToLabel 60000000000 = .ok "1m" ∧ OrderPreserving demoState "1m" ∧
      DecodeSound demoState demoState.db "1m" ∧
      GetLatestData demoPc demoState 60000000000 =
        .returns ⟨some (bar 180), tu 180, none⟩) ∧
    GetEarliestData demoPc demoState 60000000000 = .returns ⟨some (bar 60), tu 60, none⟩ ∧
    GetEarliestData demoPc (demoStateOf demoDBBad60 [] true) 60000000000 =
      .returns ⟨none, TimeUnit.zero, some "malformed value"⟩ ∧
    GetLatestData demoPc (demoStateOf demoDB0 [] true) 300000000000 =
      .returns ⟨some (bar 0), tu 0, none⟩ ∧
    GetEarliestData demoPc (demoStateOf demoDB0 [] true) 300000000000 =
      .returns ⟨none, TimeUnit.zero, none⟩ ∧
    ((GetEarliestData demoPc demoState 60000000000 = .returns ⟨none, TimeUnit.zero, none⟩ ∧
        ¬ ∃ t : TimeUnit, StoredAt demoState "1m" t ∧ 0 < t.val ∧ t.val ≤ (tu 180).val) ∨
      ∃ i ∈ demoState.db.items,
        bytesCompare (demoState.GetDataKey "1m" TimeUnit.zero) i.key < 0 ∧
        bytesCompare i.key (demoState.GetDataKey "1m" (tu 180)) ≤ 0 ∧
        (∀ j ∈ demoState.db.items,
          bytesCompare (demoState.GetDataKey "1m" TimeUnit.zero) j.key < 0 →
          bytesCompare j.key (demoState.GetDataKey "1m" (tu 180)) ≤ 0 →
          bytesCompare i.key j.key ≤ 0) ∧
        (∀ d, decodeItem demoPc demoState i = .ok d →
          GetEarliestData demoPc demoState 60000000000 = .returns ⟨some d, d.time, none⟩ ∧
          StoredRecord demoPc demoState demoState.db "1m" d ∧ 0 < d.time.val ∧
          d.time.val ≤ (tu 180).val ∧
          ∀ t1 : TimeUnit, StoredAt demoState "1m" t1 → 0 < t1.val → t1.val ≤ (tu 180).val →
            d.time.val ≤ t1.val) ∧
        (∀ e, decodeItem demoPc demoState i = .error e →
          GetEarliestData demoPc demoState 60000000000 =
            .returns ⟨none, TimeUnit.zero, some e⟩)) :=
  ⟨⟨rfl, demo_mono _ _ _ _, demo_sound _ _, by decide⟩, by decide, by decide, by decide,
    by decide,
    GetEarliestData_smallest demoPc demoState 60000000000 "1m" (bar 180) (tu 180) rfl
      (demo_mono _ _ _ _) (demo_sound _ _) (by decide)⟩

end Pendulea
